import Mathlib

/-!
Verification of the speedport-custom-dyndns update service.

The definitions below are a shallow embedding of the Rust sources:
`src/dyndns.rs` (the update orchestrator and the `myip` parser),
`src/provider.rs` (the `Origin` policy and the provider interface) and
`src/provider/cloudflare.rs` (the concrete REST provider).  The strict
IPv4/IPv6 address parsers and their canonical display forms are embedded
from Rust's standard library (`core::net::parser` and the `Display`
implementations), since `ParsedIpUpdate::from_str` delegates to them.
Strings are modelled at the level of their character lists.
-/

deriving instance DecidableEq for Except

namespace Dyndns

/-- DNS record types supported by the service (`src/provider.rs`). -/
inductive DnsRecordType
  | A
  | AAAA
deriving DecidableEq, Repr

/-- Rust `{:?}` rendering of `DnsRecordType`. -/
def DnsRecordType.debugStr : DnsRecordType → String
  | .A => "A"
  | .AAAA => "AAAA"

/-! ## Strict IPv4 parsing (Rust `core::net::parser`, `read_number(10, Some(3), false)`) -/

/-- One decimal octet: a maximal run of ASCII digits, at most 3 of them, no
leading zero unless the octet is exactly "0", value at most 255 (the u8
checked arithmetic of the Rust parser). -/
def readOctet (cs : List Char) : Option (Nat × List Char) :=
  let digits := cs.takeWhile Char.isDigit
  let rest := cs.dropWhile Char.isDigit
  if digits.isEmpty then none
  else if 3 < digits.length then none
  else if digits.head? = some '0' ∧ 1 < digits.length then none
  else
    let v := digits.foldl (fun a c => a * 10 + (c.toNat - 48)) 0
    if 255 < v then none else some (v, rest)

/-- Consume one expected character. -/
def expectChar (c : Char) (cs : List Char) : Option (List Char) :=
  match cs with
  | d :: rest => if d = c then some rest else none
  | [] => none

/-- Rust `read_ipv4_addr`: four octets separated by dots. -/
def readIpv4Chars (cs : List Char) : Option ((Nat × Nat × Nat × Nat) × List Char) :=
  match readOctet cs with
  | none => none
  | some (a, r0) =>
    match expectChar '.' r0 with
    | none => none
    | some r1 =>
      match readOctet r1 with
      | none => none
      | some (b, r2) =>
        match expectChar '.' r2 with
        | none => none
        | some r3 =>
          match readOctet r3 with
          | none => none
          | some (c, r4) =>
            match expectChar '.' r4 with
            | none => none
            | some r5 =>
              match readOctet r5 with
              | none => none
              | some (d, r6) => some ((a, b, c, d), r6)

/-- Rust `Ipv4Addr::from_str`: the whole input must be consumed. -/
def parseIpv4 (cs : List Char) : Option (Nat × Nat × Nat × Nat) :=
  match readIpv4Chars cs with
  | some (v, []) => some v
  | _ => none

/-! ## Decimal and lowercase-hex rendering (Rust `Display` for u8 / `{:x}` for u16) -/

/-- One digit character: decimal digits, then lowercase letters (Rust `{:x}`). -/
def hexDigitChar (n : Nat) : Char :=
  if n < 10 then Char.ofNat (48 + n) else Char.ofNat (87 + n)

/-- Digits of a natural number in a given base, most significant first;
`fuel` bounds the recursion depth and is irrelevant once larger than `n`. -/
def reprAux (base : Nat) : Nat → Nat → List Char
  | 0, _ => []
  | fuel + 1, n =>
    if n < base then [hexDigitChar n]
    else reprAux base fuel (n / base) ++ [hexDigitChar (n % base)]

/-- Decimal digits of a natural number, most significant first. -/
def decRepr (n : Nat) : List Char := reprAux 10 (n + 1) n

/-- Lowercase hexadecimal digits of a natural number, most significant first. -/
def hexRepr (n : Nat) : List Char := reprAux 16 (n + 1) n

/-- Rust `Display for Ipv4Addr`: `a.b.c.d`. -/
def ipv4Chars (a b c d : Nat) : List Char :=
  decRepr a ++ '.' :: decRepr b ++ '.' :: decRepr c ++ '.' :: decRepr d

/-! ## Strict IPv6 parsing (Rust `read_ipv6_addr`) -/

/-- Characters accepted by `to_digit(16)`. -/
def isHexChar (c : Char) : Bool :=
  c.isDigit || ('a' ≤ c && c ≤ 'f') || ('A' ≤ c && c ≤ 'F')

/-- Value of a hexadecimal digit character. -/
def hexVal (c : Char) : Nat :=
  if c.isDigit then c.toNat - 48
  else if 'a' ≤ c && c ≤ 'f' then c.toNat - 87
  else c.toNat - 55

/-- Rust `read_number(16, Some(4), true)`: a maximal run of hex digits, at
most 4 of them, zero prefixes allowed. -/
def readHexGroup (cs : List Char) : Option (Nat × List Char) :=
  let digits := cs.takeWhile isHexChar
  let rest := cs.dropWhile isHexChar
  if digits.isEmpty then none
  else if 4 < digits.length then none
  else some (digits.foldl (fun a c => a * 16 + hexVal c) 0, rest)

/-- An embedded trailing IPv4 address, as two 16-bit groups. -/
def readIpv4Embedded (cs : List Char) : Option ((Nat × Nat) × List Char) :=
  match readIpv4Chars cs with
  | some ((a, b, c, d), rest) => some ((a * 256 + b, c * 256 + d), rest)
  | none => none

/-- Rust `read_separator`: at index 0 no separator, afterwards the separator
character must come first; on inner failure nothing is consumed. -/
def readSep (sep : Char) (i : Nat) (f : List Char → Option (α × List Char))
    (cs : List Char) : Option (α × List Char) :=
  match i, cs with
  | 0, cs => f cs
  | _ + 1, c :: rest => if c = sep then f rest else none
  | _ + 1, [] => none

/-- Rust `read_groups`: read colon-separated 16-bit groups into a slice of
length `i + rem` (the current index being `i`), allowing an embedded
trailing IPv4 address while at least two slots remain.  Returns the groups
read, whether an embedded IPv4 address ended them, and the rest of the
input. -/
def readGroups (i : Nat) (rem : Nat) (cs : List Char) : List Nat × Bool × List Char :=
  match rem with
  | 0 => ([], false, cs)
  | rem' + 1 =>
    match (if 1 ≤ rem' then readSep ':' i readIpv4Embedded cs else none) with
    | some ((g1, g2), rest) => ([g1, g2], true, rest)
    | none =>
      match readSep ':' i readHexGroup cs with
      | some (g, rest) =>
        let (gs, b, rest') := readGroups (i + 1) rem' rest
        (g :: gs, b, rest')
      | none => ([], false, cs)

/-- Rust `read_ipv6_addr`: a head of up to 8 groups; if fewer than 8, two
colons and then a tail short enough to leave at least one zero group. -/
def readIpv6Chars (cs : List Char) : Option (List Nat × List Char) :=
  match readGroups 0 8 cs with
  | (head, headIpv4, rest) =>
    if head.length = 8 then some (head, rest)
    else if headIpv4 then none
    else
      match rest with
      | c1 :: c2 :: rest2 =>
        if c1 = ':' then
          if c2 = ':' then
            match readGroups 0 (8 - (head.length + 1)) rest2 with
            | (tail, _, rest3) =>
              some (head ++ List.replicate (8 - head.length - tail.length) 0 ++ tail,
                rest3)
          else none
        else none
      | _ => none

/-- Rust `Ipv6Addr::from_str`: the whole input must be consumed. -/
def parseIpv6 (cs : List Char) : Option (List Nat) :=
  match readIpv6Chars cs with
  | some (gs, []) => some gs
  | _ => none

/-! ## IPv6 canonical display (Rust `Display for Ipv6Addr`) -/

/-- `to_ipv4_mapped` succeeds: the first six groups are `0,0,0,0,0,0xffff`. -/
def isMapped (gs : List Nat) : Bool :=
  match gs with
  | [0, 0, 0, 0, 0, 65535, _, _] => true
  | _ => false

/-- Longest run of zero groups, earliest among maxima: the fold of Rust's
display code, tracking (index, current start, current length, best start,
best length). -/
def zeroRunGo : List Nat → Nat → Nat → Nat → Nat → Nat → Nat × Nat
  | [], _, _, _, bs, bl => (bs, bl)
  | g :: rest, i, cs, cl, bs, bl =>
    if g = 0 then
      let cs' := if cl = 0 then i else cs
      let cl' := cl + 1
      if bl < cl' then zeroRunGo rest (i + 1) cs' cl' cs' cl'
      else zeroRunGo rest (i + 1) cs' cl' bs bl
    else zeroRunGo rest (i + 1) cs 0 bs bl

/-- Longest zero run of a group list: (start, length). -/
def zeroRun (gs : List Nat) : Nat × Nat :=
  zeroRunGo gs 0 0 0 0 0

/-- Hex groups joined by colons; the flag says whether a leading colon is
needed before the first group. -/
def groupsChars : Bool → List Nat → List Char
  | _, [] => []
  | false, g :: gs => hexRepr g ++ groupsChars true gs
  | true, g :: gs => ':' :: (hexRepr g ++ groupsChars true gs)

/-- Rust `Display for Ipv6Addr`: IPv4-mapped addresses as `::ffff:a.b.c.d`,
otherwise the longest zero run (of length at least 2) compressed to `::`. -/
def ipv6Chars (gs : List Nat) : List Char :=
  if isMapped gs then
    let g6 := gs.getD 6 0
    let g7 := gs.getD 7 0
    ':' :: ':' :: 'f' :: 'f' :: 'f' :: 'f' :: ':' ::
      ipv4Chars (g6 / 256) (g6 % 256) (g7 / 256) (g7 % 256)
  else
    let z := zeroRun gs
    if 1 < z.2 then
      groupsChars false (gs.take z.1) ++ ':' :: ':' :: groupsChars false (gs.drop (z.1 + z.2))
    else
      groupsChars false gs

/-! ## The `myip` parser (`ParsedIpUpdate::from_str`, src/dyndns.rs) -/

/-- Rust `str::split(',')` at the character level. -/
def splitComma : List Char → List (List Char)
  | [] => [[]]
  | c :: rest =>
    if c = ',' then [] :: splitComma rest
    else
      match splitComma rest with
      | p :: ps => (c :: p) :: ps
      | [] => [[c]]

/-- The body of the `from_str` loop: a part containing a dot is parsed as a
strict IPv4 literal, a part containing a colon as a strict IPv6 literal,
anything else is rejected; the address is re-rendered canonically. -/
def classifyPart (part : List Char) : Except String (DnsRecordType × String) :=
  if part.contains '.' then
    match parseIpv4 part with
    | some (a, b, c, d) => .ok (.A, String.mk (ipv4Chars a b c d))
    | none => .error "Could not parse IPv4"
  else if part.contains ':' then
    match parseIpv6 part with
    | some gs => .ok (.AAAA, String.mk (ipv6Chars gs))
    | none => .error "Could not parse IPv6"
  else
    .error ("IP part '" ++ String.mk part ++ "' is neither IPv4 nor IPv6")

/-- The `from_str` loop over all comma-separated parts: the first failure
fails the whole parse. -/
def classifyParts : List (List Char) → Except String (List (DnsRecordType × String))
  | [] => .ok []
  | p :: ps =>
    match classifyPart p with
    | .error e => .error e
    | .ok pair =>
      match classifyParts ps with
      | .error e => .error e
      | .ok rest => .ok (pair :: rest)

/-- The parsed `myip` parameter: an ordered list of (record type, canonical
address) pairs. -/
structure ParsedIpUpdate where
  record_update : List (DnsRecordType × String)
deriving DecidableEq, Repr

/-- `ParsedIpUpdate::from_str` (src/dyndns.rs): split on commas, classify
every part, and reject an empty result. -/
def ParsedIpUpdate.fromStr (s : String) : Except String ParsedIpUpdate :=
  match classifyParts (splitComma s.data) with
  | .error e => .error e
  | .ok l =>
    if l.isEmpty then .error ("No IP addresses found in '" ++ s ++ "'")
    else .ok ⟨l⟩

/-! ## Origin policy (src/provider.rs) -/

/-- The administrator-configured DNS zone name. -/
structure Origin where
  val : String
deriving DecidableEq, Repr

/-- `Origin::is_subdomain`: the candidate hostname must end with
`"." + origin` (Rust `str::ends_with`, modelled as a character-level
suffix check). -/
def Origin.is_subdomain (o : Origin) (domain : String) : Bool :=
  List.isSuffixOf ('.' :: o.val.data) domain.data

/-! ## Error reports

Modelled from the spec: the `rootcause` error-report type used by the
sources is not part of this repository.  Per the spec (sections 4.3, 7 and
9), a report carries a displayed message plus an ordered list of
operator-facing context strings; `attach` appends such a string without
changing the display, `context` makes its string the displayed message
while the previous one is preserved for logging. -/

/-- Modelled from the spec: a structured error, "a kind enum plus an
ordered list of context strings"; the display used in client-visible
formatting is the current message only, attachments being "for
operator-facing logging only". -/
structure Report where
  message : String
  attached : List String
deriving DecidableEq, Repr

/-- `report!(msg)` / `bail!(msg)`: a fresh report. -/
def Report.ofMsg (msg : String) : Report := ⟨msg, []⟩

/-- `.attach(s)`: appends an operator-facing string, display unchanged. -/
def Report.attach (r : Report) (s : String) : Report :=
  ⟨r.message, r.attached ++ [s]⟩

/-- `.context(s)`: the new message is displayed, the old one is kept for
operator-facing logging. -/
def Report.context (r : Report) (s : String) : Report :=
  ⟨s, r.attached ++ [r.message]⟩

/-! ## Provider data model (src/provider.rs) -/

/-- A provider-reported DNS record. -/
structure DnsEntry where
  typ : DnsRecordType
  id : String
  name : String
  content : String
deriving DecidableEq, Repr

/-! ## The update orchestrator (src/dyndns.rs)

The provider is a trait object performing network effects; it is modelled
by two oracles given as parameters: the outcome of `list_records`, and for
each issued `update_record` call (numbered from 0 in issue order, with its
record id and new content) either success or a failure report.  Each
function also returns the list of `update_record` calls it issued, in
order, so that the effect on the provider is part of the result. -/

/-- Outcome of the orchestrator body: the issued `(record id, new content)`
calls in order, and the result. -/
structure UpdateOutcome where
  calls : List (String × String)
  result : Except Report (List String)
deriving DecidableEq, Repr

/-- The `for (record_type, new_ip) in &ip.record_update` loop of
`update_record` (src/dyndns.rs lines 94-111): look up the first record of
the pair's type, skip the pair if there is none, otherwise issue one
`update_record` call; a failing call aborts with the report (attached with
the domain and record type), a successful one appends the address. -/
def updateLoop (updRes : Nat → String → String → Option Report)
    (domain : String) (records : List DnsEntry) :
    Nat → List (DnsRecordType × String) → UpdateOutcome
  | _, [] => ⟨[], .ok []⟩
  | k, (t, ip) :: rest =>
    match records.find? (fun r => r.typ == t) with
    | none => updateLoop updRes domain records k rest
    | some r =>
      match updRes k r.id ip with
      | some e =>
        ⟨[(r.id, ip)],
         .error ((e.attach ("For domain '" ++ domain ++ "'")).attach
           ("For " ++ t.debugStr ++ " record"))⟩
      | none =>
        let o := updateLoop updRes domain records (k + 1) rest
        ⟨(r.id, ip) :: o.calls, o.result.map (ip :: ·)⟩

/-- `update_record` (src/dyndns.rs lines 79-114): list the origin's
records, keep those whose name equals the requested domain, and run the
update loop over the parsed pairs. -/
def update_record (listRes : Except Report (List DnsEntry))
    (updRes : Nat → String → String → Option Report)
    (domain : String) (ip : ParsedIpUpdate) : UpdateOutcome :=
  match listRes with
  | .error e => ⟨[], .error e⟩
  | .ok records =>
    updateLoop updRes domain (records.filter (fun r => r.name == domain)) 0
      ip.record_update

/-- An HTTP response of the handler: 200, 400 or 500 with its body. -/
inductive Resp
  | ok (body : String)
  | badRequest (body : String)
  | internalError (body : String)
deriving DecidableEq, Repr

/-- Outcome of a whole request: the issued provider calls and the response. -/
structure HandlerOutcome where
  calls : List (String × String)
  resp : Resp
deriving DecidableEq, Repr

/-- `handle_dyndns_request` (src/dyndns.rs lines 17-77): parse `myip`
(failure: 400), check the hostname against the configured origin (failure:
400), run the update (failure: 500 with the report's display appended to a
fixed wrapper), and on success answer 200 with one `good <address>` line
per applied address, newline-joined. -/
def handle_dyndns_request (origin : Origin)
    (listRes : Except Report (List DnsEntry))
    (updRes : Nat → String → String → Option Report)
    (hostname myip : String) : HandlerOutcome :=
  match ParsedIpUpdate.fromStr myip with
  | .error e => ⟨[], .badRequest ("invalid 'myip' parameter: " ++ e)⟩
  | .ok ip =>
    if ¬ origin.is_subdomain hostname then
      ⟨[], .badRequest ("domain '" ++ hostname ++ "' is not a subdomain of '" ++
        origin.val ++ "'")⟩
    else
      let o := update_record listRes updRes hostname ip
      match o.result with
      | .error e =>
        ⟨o.calls, .internalError ("failed to update DNS record: " ++ e.message)⟩
      | .ok ips =>
        ⟨o.calls, .ok (String.intercalate "\n" (ips.map (fun it => "good " ++ it)))⟩

/-- The calls the loop issues when no failure interrupts it: one per pair
whose type has a matching record, in input order, carrying the pair's
record type, the first matching record's id and the pair's address. -/
def matchedCalls (records : List DnsEntry) (pairs : List (DnsRecordType × String)) :
    List (DnsRecordType × String × String) :=
  pairs.filterMap fun p =>
    (records.find? (fun r => r.typ == p.1)).map fun r => (p.1, r.id, p.2)

/-- Projection of a matched call to the issued `(record id, new content)`. -/
def callOf (m : DnsRecordType × String × String) : String × String :=
  (m.2.1, m.2.2)

/-! ## The concrete REST provider (src/provider/cloudflare.rs)

Network transfer and JSON decoding are performed by external crates; their
outcome at each step is an oracle parameter below.  What the repository's
code contributes — the zone disambiguation, the error construction, and
the shape of the PATCH request — is embedded from the source. -/

/-- A zone as decoded from the zone-search response. -/
structure CloudflareZone where
  id : String
  name : String
deriving DecidableEq, Repr

/-- Outcome of the zone query's transport and decoding stages. -/
inductive ZoneQueryOutcome
  | sendFailure (e : Report)
  | parseFailure (e : Report)
  | success (zones : List CloudflareZone)
deriving DecidableEq, Repr

/-- `CloudflareProvider::get_zone_id` (src/provider/cloudflare.rs lines
22-53): transport and decode failures are contexted; more than one zone in
the response is an error; otherwise the zone whose name equals the origin
is selected, its absence being an error. -/
def get_zone_id (origin : Origin) (q : ZoneQueryOutcome) : Except Report String :=
  match q with
  | .sendFailure e =>
    .error ((e.context "Listing records").attach
      ("origin: '" ++ origin.val ++ "'"))
  | .parseFailure e =>
    .error ((e.context "Parsing Cloudflare zones response").attach
      ("origin: '" ++ origin.val ++ "'"))
  | .success zones =>
    if 1 < zones.length then
      .error (((Report.ofMsg "Multiple zones found for origin").attach
        ("origin: '" ++ origin.val ++ "'")).attach
        ("zones: " ++ String.intercalate ", " (zones.map (·.name))))
    else
      match zones.find? (fun z => z.name == origin.val) with
      | some z => .ok z.id
      | none =>
        .error ((Report.ofMsg "No zone found for origin").attach
          ("origin: '" ++ origin.val ++ "'"))

/-- The error report `CloudflareProvider::update_record` builds from a
non-success HTTP response (src/provider/cloudflare.rs lines 125-135). -/
def cfUpdateFailedReport (origin : Origin) (recordId status respBody : String) :
    Report :=
  ((((Report.ofMsg "Failed to update DNS record in Cloudflare").attach
    ("origin: '" ++ origin.val ++ "'")).attach
    ("record_id: '" ++ recordId ++ "'")).attach
    ("status: " ++ status)).attach
    ("response: " ++ respBody)

/-- The error report `CloudflareProvider::list_records` builds from a
non-success HTTP response (src/provider/cloudflare.rs lines 74-83). -/
def cfListFailedReport (origin : Origin) (status respBody : String) : Report :=
  (((Report.ofMsg "Failed to list DNS records from Cloudflare").attach
    ("origin: '" ++ origin.val ++ "'")).attach
    ("status: " ++ status)).attach
    ("response: " ++ respBody)

/-- The PATCH request `CloudflareProvider::update_record` issues
(src/provider/cloudflare.rs lines 106-115): the JSON body is the single
field `content`. -/
structure PatchRequest where
  url : String
  bodyFields : List (String × String)
deriving DecidableEq, Repr

/-- Construction of the update request from the source. -/
def cfUpdateRequest (zoneId recordId newContent : String) : PatchRequest :=
  { url := "https://api.cloudflare.com/client/v4/zones/" ++ zoneId ++
      "/dns_records/" ++ recordId,
    bodyFields := [("content", newContent)] }

/-- A DNS record's provider-side state, as far as the spec names its
fields: type, name, content and TTL. -/
structure CfRecordState where
  typ : String
  name : String
  content : String
  ttl : String
deriving DecidableEq, Repr

/-- Modelled from the spec: the REST backend's PATCH semantics — "a partial
update of only the `content` field"; a field of the record changes exactly
when the request body carries a field of that name.  The backend itself is
not part of this repository. -/
def applyPatch (fields : List (String × String)) (r : CfRecordState) : CfRecordState :=
  { typ := (fields.lookup "type").getD r.typ,
    name := (fields.lookup "name").getD r.name,
    content := (fields.lookup "content").getD r.content,
    ttl := (fields.lookup "ttl").getD r.ttl }

/-! ## Helper lemmas -/

/-- A list of length at most one containing an element is that singleton. -/
lemma eq_singleton_of_length_le_one {α : Type _} {l : List α} {a : α}
    (hlen : l.length ≤ 1) (hmem : a ∈ l) : l = [a] := by
  match l with
  | [] => cases hmem
  | [b] => simp_all
  | b :: c :: t => simp at hlen

/-! ## C5: the origin subdomain policy -/

/-- C5: for every origin string o and hostname h, `is_subdomain` returns
true iff h ends with the string "." + o; in particular
`Origin("example.com").is_subdomain("sub.example.com")` is true, the origin
itself is not accepted, and "evilexample.com" is rejected for lack of a dot
boundary. -/
theorem C5_is_subdomain_iff :
    (∀ (o : Origin) (h : String),
      o.is_subdomain h = true ↔ ∃ p : List Char, h.data = p ++ '.' :: o.val.data)
    ∧ (Origin.mk "example.com").is_subdomain "sub.example.com" = true
    ∧ (Origin.mk "example.com").is_subdomain "example.com" = false
    ∧ (Origin.mk "example.com").is_subdomain "evilexample.com" = false := by
  refine ⟨?_, by decide, by decide, by decide⟩
  intro o h
  rw [Origin.is_subdomain, List.isSuffixOf_iff_suffix]
  constructor
  · rintro ⟨p, hp⟩
    exact ⟨p, hp.symm⟩
  · rintro ⟨p, hp⟩
    exact ⟨p, hp.symm⟩

/-! ## C8: the provider update request mutates only the content field -/

/-- C8: the PATCH request built by the concrete provider's `update_record`
carries exactly the single JSON field "content"; under the backend's
partial-update semantics it therefore overwrites the record's content with
the new value and leaves type, name and TTL unchanged. -/
theorem C8_update_record_content_only :
    ∀ (zoneId recordId newContent : String) (r : CfRecordState),
      (cfUpdateRequest zoneId recordId newContent).bodyFields.map Prod.fst = ["content"]
      ∧ applyPatch (cfUpdateRequest zoneId recordId newContent).bodyFields r =
          { r with content := newContent } := by
  intro zoneId recordId newContent r
  constructor
  · rfl
  · simp [cfUpdateRequest, applyPatch, List.lookup]

/-! ## C6: zone resolution fails distinctly and succeeds only unambiguously -/

/-- C6: `get_zone_id` fails with a distinct message for a transport
failure, a response-decoding failure, an ambiguous (more than one) zone
answer and a zero-zone answer, and succeeds with the zone id exactly when
the query yields exactly one zone whose name is the origin. -/
theorem C6_get_zone_id_cases :
    ∀ origin : Origin,
      (∀ e, ∃ r, get_zone_id origin (.sendFailure e) = .error r
        ∧ r.message = "Listing records")
      ∧ (∀ e, ∃ r, get_zone_id origin (.parseFailure e) = .error r
        ∧ r.message = "Parsing Cloudflare zones response")
      ∧ (∀ zones, 1 < zones.length → ∃ r,
          get_zone_id origin (.success zones) = .error r
          ∧ r.message = "Multiple zones found for origin")
      ∧ (∀ zones, zones.length ≤ 1 →
          zones.find? (fun z => z.name == origin.val) = none → ∃ r,
          get_zone_id origin (.success zones) = .error r
          ∧ r.message = "No zone found for origin")
      ∧ (∀ q zid, get_zone_id origin q = .ok zid ↔
          ∃ z : CloudflareZone, q = .success [z] ∧ z.name = origin.val ∧ zid = z.id)
      ∧ (["Listing records", "Parsing Cloudflare zones response",
          "Multiple zones found for origin",
          "No zone found for origin"].Pairwise (· ≠ ·)) := by
  intro origin
  refine ⟨fun e => ⟨_, rfl, rfl⟩, fun e => ⟨_, rfl, rfl⟩, ?_, ?_, ?_, by decide⟩
  · intro zones hlen
    refine ⟨((Report.ofMsg "Multiple zones found for origin").attach
      ("origin: '" ++ origin.val ++ "'")).attach
      ("zones: " ++ String.intercalate ", " (zones.map (·.name))), ?_, rfl⟩
    simp only [get_zone_id, if_pos hlen]
  · intro zones hlen hfind
    have hnot : ¬ 1 < zones.length := by omega
    refine ⟨(Report.ofMsg "No zone found for origin").attach
      ("origin: '" ++ origin.val ++ "'"), ?_, rfl⟩
    simp only [get_zone_id, if_neg hnot, hfind]
  · intro q zid
    constructor
    · intro hok
      cases q with
      | sendFailure e => simp [get_zone_id] at hok
      | parseFailure e => simp [get_zone_id] at hok
      | success zones =>
        by_cases hlen : 1 < zones.length
        · simp [get_zone_id, if_pos hlen] at hok
        · rw [get_zone_id] at hok
          rw [if_neg hlen] at hok
          cases hfind : zones.find? (fun z => z.name == origin.val) with
          | none => rw [hfind] at hok; exact absurd hok (by simp)
          | some z =>
            rw [hfind] at hok
            have hz : z.name = origin.val := by
              have := List.find?_some hfind
              simpa [beq_iff_eq] using this
            have hmem : z ∈ zones := List.mem_of_find?_eq_some hfind
            have hzones : zones = [z] :=
              eq_singleton_of_length_le_one (by omega) hmem
            refine ⟨z, by rw [hzones], hz, ?_⟩
            cases hok
            rfl
    · rintro ⟨z, rfl, hz, rfl⟩
      rw [get_zone_id]
      rw [if_neg (by simp)]
      have : List.find? (fun z' => z'.name == origin.val) [z] = some z := by
        simp [List.find?_cons, hz]
      rw [this]

/-- C6 witness: the ambiguous two-zone answer is rejected with the
dedicated message. -/
theorem C6_witness :
    ∃ r, get_zone_id ⟨"example.com"⟩
        (.success [⟨"z1", "example.com"⟩, ⟨"z2", "example.com"⟩]) = .error r
      ∧ r.message = "Multiple zones found for origin" :=
  (C6_get_zone_id_cases ⟨"example.com"⟩).2.2.1 _ (by decide)

/-! ## C7: a parsed update is never empty -/

/-- C7: a successfully constructed `ParsedIpUpdate` contains at least one
pair, and inputs yielding zero pairs — the empty string among them — are
rejected. -/
theorem C7_parsed_update_nonempty :
    (∀ s u, ParsedIpUpdate.fromStr s = .ok u → u.record_update ≠ [])
    ∧ (∀ u, ParsedIpUpdate.fromStr "" ≠ .ok u) := by
  constructor
  · intro s u h
    rw [ParsedIpUpdate.fromStr] at h
    cases hc : classifyParts (splitComma s.data) with
    | error e => rw [hc] at h; exact absurd h (by simp)
    | ok l =>
      rw [hc] at h
      dsimp only at h
      by_cases hl : l.isEmpty
      · rw [if_pos hl] at h; exact absurd h (by simp)
      · rw [if_neg hl] at h
        cases h
        simpa [List.isEmpty_iff] using hl
  · intro u h
    rw [show ParsedIpUpdate.fromStr "" =
      .error "IP part '' is neither IPv4 nor IPv6" from rfl] at h
    cases h

/-- C7 witness: a concrete accepted input has a nonempty pair list. -/
theorem C7_witness :
    (⟨[(DnsRecordType.A, "1.2.3.4")]⟩ : ParsedIpUpdate).record_update ≠ [] :=
  C7_parsed_update_nonempty.1 "1.2.3.4" _ (by decide)

/-! ## The `myip` parser: characterization lemmas -/

/-- Splitting never yields an empty list of parts. -/
lemma splitComma_ne_nil : ∀ cs : List Char, splitComma cs ≠ [] := by
  intro cs
  induction cs with
  | nil => simp [splitComma]
  | cons c rest ih =>
    rw [splitComma]
    by_cases hc : c = ','
    · simp [hc]
    · rw [if_neg hc]
      cases h : splitComma rest with
      | nil => simp
      | cons p ps => simp

/-- A successful `classifyParts` run classifies the parts pointwise, in
order. -/
lemma classifyParts_ok_forall₂ : ∀ (ps : List (List Char)) l,
    classifyParts ps = .ok l →
    List.Forall₂ (fun p pair => classifyPart p = .ok pair) ps l := by
  intro ps
  induction ps with
  | nil =>
    intro l h
    cases h
    exact .nil
  | cons p ps ih =>
    intro l h
    rw [classifyParts] at h
    cases hp : classifyPart p with
    | error e => rw [hp] at h; exact absurd h (by simp)
    | ok pair =>
      rw [hp] at h
      dsimp only at h
      cases hps : classifyParts ps with
      | error e => rw [hps] at h; exact absurd h (by simp)
      | ok rest =>
        rw [hps] at h
        dsimp only at h
        cases h
        exact .cons hp (ih _ hps)

/-- Every part of a successful run classifies. -/
lemma classifyParts_all_ok : ∀ (ps : List (List Char)) l,
    classifyParts ps = .ok l →
    ∀ p ∈ ps, ∃ pair, classifyPart p = .ok pair := by
  intro ps
  induction ps with
  | nil => intro l _ p hp; cases hp
  | cons q ps ih =>
    intro l h p hp
    rw [classifyParts] at h
    cases hq : classifyPart q with
    | error e => rw [hq] at h; exact absurd h (by simp)
    | ok pair =>
      rw [hq] at h
      dsimp only at h
      cases hps : classifyParts ps with
      | error e => rw [hps] at h; exact absurd h (by simp)
      | ok rest =>
        cases hp with
        | head => exact ⟨pair, hq⟩
        | tail _ hp => exact ih rest hps p hp

/-- If every part classifies, the whole run succeeds. -/
lemma classifyParts_of_all_ok : ∀ ps : List (List Char),
    (∀ p ∈ ps, ∃ pair, classifyPart p = .ok pair) →
    ∃ l, classifyParts ps = .ok l := by
  intro ps
  induction ps with
  | nil => exact fun _ => ⟨[], rfl⟩
  | cons p ps ih =>
    intro h
    obtain ⟨pair, hp⟩ := h p (by simp)
    obtain ⟨l, hl⟩ := ih fun q hq => h q (by simp [hq])
    exact ⟨pair :: l, by rw [classifyParts, hp, hl]⟩

/-- A successful run over the split of any string is nonempty, so the
dedicated empty-result check of `from_str` can never fire. -/
lemma classifyParts_split_ne_nil {s : String} {l}
    (h : classifyParts (splitComma s.data) = .ok l) : l ≠ [] := by
  intro hnil
  subst hnil
  have hlen := (classifyParts_ok_forall₂ _ _ h).length_eq
  exact splitComma_ne_nil s.data (List.length_eq_zero.mp hlen)

/-- `from_str` succeeds exactly when classifying all parts does. -/
lemma fromStr_ok_iff (s : String) (u : ParsedIpUpdate) :
    ParsedIpUpdate.fromStr s = .ok u ↔
      classifyParts (splitComma s.data) = .ok u.record_update := by
  rw [ParsedIpUpdate.fromStr]
  cases hc : classifyParts (splitComma s.data) with
  | error e => simp
  | ok l =>
    dsimp only
    have hne : l ≠ [] := classifyParts_split_ne_nil hc
    rw [if_neg (by simpa [List.isEmpty_iff] using hne)]
    cases u with
    | mk ru =>
      constructor
      · intro h
        cases h
        rfl
      · intro h
        dsimp only at h
        cases h
        rfl

/-- If the parts before a failing part all classify, the failing part's
error is the whole run's error. -/
lemma classifyParts_first_error : ∀ (pre : List (List Char)) q post e,
    (∀ p ∈ pre, ∃ pair, classifyPart p = .ok pair) →
    classifyPart q = .error e →
    classifyParts (pre ++ q :: post) = .error e := by
  intro pre
  induction pre with
  | nil =>
    intro q post e _ hq
    rw [List.nil_append, classifyParts, hq]
  | cons p pre ih =>
    intro q post e h hq
    obtain ⟨pair, hp⟩ := h p (by simp)
    rw [List.cons_append, classifyParts, hp]
    dsimp only
    rw [ih q post e (fun r hr => h r (by simp [hr])) hq]

/-! ## C2: the `myip` parser algorithm -/

/-- C2: splitting on commas, each part is classified by character content —
a dot means strict IPv4 and an `A` pair, a colon means strict IPv6 and an
`AAAA` pair, anything else fails — a single failing part fails the whole
parse, pair order follows input order, and a parse whose pair list would be
empty fails. -/
theorem C2_myip_parser_characterization :
    ∀ s : String,
      (∀ u, ParsedIpUpdate.fromStr s = .ok u →
        List.Forall₂ (fun p pair => classifyPart p = .ok pair)
          (splitComma s.data) u.record_update)
      ∧ ((∃ u, ParsedIpUpdate.fromStr s = .ok u) ↔
          ∀ p ∈ splitComma s.data, ∃ pair, classifyPart p = .ok pair)
      ∧ (∀ p pair, classifyPart p = .ok pair →
          (pair.1 = .A ∧ p.contains '.' = true
            ∧ ∃ a b c d, parseIpv4 p = some (a, b, c, d)
              ∧ pair.2 = String.mk (ipv4Chars a b c d))
          ∨ (pair.1 = .AAAA ∧ p.contains '.' = false ∧ p.contains ':' = true
            ∧ ∃ gs, parseIpv6 p = some gs ∧ pair.2 = String.mk (ipv6Chars gs)))
      ∧ (∀ p : List Char, p.contains '.' = false → p.contains ':' = false →
          classifyPart p =
            .error ("IP part '" ++ String.mk p ++ "' is neither IPv4 nor IPv6")) := by
  intro s
  refine ⟨?_, ⟨?_, ?_⟩, ?_, ?_⟩
  · intro u h
    exact classifyParts_ok_forall₂ _ _ ((fromStr_ok_iff s u).mp h)
  · rintro ⟨u, hu⟩
    exact classifyParts_all_ok _ _ ((fromStr_ok_iff s u).mp hu)
  · intro hall
    obtain ⟨l, hl⟩ := classifyParts_of_all_ok _ hall
    exact ⟨⟨l⟩, (fromStr_ok_iff s ⟨l⟩).mpr hl⟩
  · intro p pair h
    rw [classifyPart] at h
    by_cases hdot : p.contains '.'
    · rw [if_pos hdot] at h
      cases hv : parseIpv4 p with
      | none => rw [hv] at h; exact absurd h (by simp)
      | some v =>
        obtain ⟨a, b, c, d⟩ := v
        rw [hv] at h
        dsimp only at h
        cases h
        exact .inl ⟨rfl, hdot, a, b, c, d, rfl, rfl⟩
    · rw [if_neg hdot] at h
      by_cases hcolon : p.contains ':'
      · rw [if_pos hcolon] at h
        cases hv : parseIpv6 p with
        | none => rw [hv] at h; exact absurd h (by simp)
        | some gs =>
          rw [hv] at h
          dsimp only at h
          cases h
          exact .inr ⟨rfl, by simpa using hdot, hcolon, gs, rfl, rfl⟩
      · rw [if_neg hcolon] at h
        exact absurd h (by simp)
  · intro p h1 h2
    rw [classifyPart, if_neg (by rw [h1]; simp), if_neg (by rw [h2]; simp)]

/-- C2 witness: a mixed concrete input parses to its typed pairs. -/
theorem C2_witness :
    List.Forall₂ (fun p pair => classifyPart p = .ok pair)
      (splitComma ("2.2.2.2,::1".data))
      [(DnsRecordType.A, "2.2.2.2"), (DnsRecordType.AAAA, "::1")] :=
  (C2_myip_parser_characterization "2.2.2.2,::1").1 ⟨_⟩ (by decide)

/-! ## C10: empty segments fail, and the empty-result branch is dead -/

/-- C10 counterexample: "1.2," contains an empty (trailing) segment, yet
the parse fails with the IPv4 parse error of the earlier segment, not with
the per-segment classification error of any of its segments. -/
theorem C10_counterexample :
    ([] : List Char) ∈ splitComma ("1.2,".data)
    ∧ ParsedIpUpdate.fromStr "1.2," = .error "Could not parse IPv4"
    ∧ ParsedIpUpdate.fromStr "1.2," ≠ .error "IP part '' is neither IPv4 nor IPv6"
    ∧ ParsedIpUpdate.fromStr "1.2," ≠ .error "IP part '1.2' is neither IPv4 nor IPv6" :=
  ⟨by decide, by decide, by decide, by decide⟩

/-- C10 (amended): an input with an empty comma-separated segment always
fails — the segment is never skipped — and the failure is the empty
segment's classification error whenever all earlier segments classify;
moreover a successful classification of any input's segments is nonempty,
so the dedicated empty-result branch is unreachable. -/
theorem C10_amended :
    (∀ s : String, ([] : List Char) ∈ splitComma s.data →
      ∃ e, ParsedIpUpdate.fromStr s = .error e)
    ∧ (∀ (s : String) pre post, splitComma s.data = pre ++ ([] : List Char) :: post →
        (∀ p ∈ pre, ∃ pair, classifyPart p = .ok pair) →
        ParsedIpUpdate.fromStr s = .error "IP part '' is neither IPv4 nor IPv6")
    ∧ (∀ (s : String) l, classifyParts (splitComma s.data) = .ok l → l ≠ []) := by
  refine ⟨?_, ?_, fun s l h => classifyParts_split_ne_nil h⟩
  · intro s hmem
    cases h : ParsedIpUpdate.fromStr s with
    | error e => exact ⟨e, rfl⟩
    | ok u =>
      exfalso
      obtain ⟨pair, hpair⟩ :=
        classifyParts_all_ok _ _ ((fromStr_ok_iff s u).mp h) [] hmem
      have hempty : classifyPart ([] : List Char) =
          .error "IP part '' is neither IPv4 nor IPv6" := by decide
      rw [hempty] at hpair
      exact absurd hpair (by simp)
  · intro s pre post hsplit hpre
    have hempty : classifyPart ([] : List Char) =
        .error "IP part '' is neither IPv4 nor IPv6" := by decide
    have herr := classifyParts_first_error pre [] post _ hpre hempty
    rw [ParsedIpUpdate.fromStr, hsplit, herr]

/-- C10 witness: a lone comma fails with the empty segment's
classification error. -/
theorem C10_witness :
    ParsedIpUpdate.fromStr "," = .error "IP part '' is neither IPv4 nor IPv6" :=
  C10_amended.2.1 "," [] [[]] (by decide) (by simp)

/-! ## The update loop: success and failure characterizations -/

/-- When every issued call succeeds, the loop issues exactly the matched
calls, in order, and collects their addresses. -/
lemma updateLoop_success (updRes : Nat → String → String → Option Report)
    (domain : String) (records : List DnsEntry) :
    ∀ (pairs : List (DnsRecordType × String)) (k0 : Nat),
      (∀ i m, (matchedCalls records pairs)[i]? = some m →
        updRes (k0 + i) m.2.1 m.2.2 = none) →
      updateLoop updRes domain records k0 pairs =
        ⟨(matchedCalls records pairs).map callOf,
         .ok ((matchedCalls records pairs).map (fun m => m.2.2))⟩ := by
  intro pairs
  induction pairs with
  | nil => intro k0 _; rfl
  | cons p rest ih =>
    obtain ⟨t, ip⟩ := p
    intro k0 hok
    cases hf : records.find? (fun r => r.typ == t) with
    | none =>
      have hmc : matchedCalls records ((t, ip) :: rest) = matchedCalls records rest := by
        simp [matchedCalls, List.filterMap_cons, hf]
      rw [updateLoop, hf, hmc]
      exact ih k0 (fun i m hm => hok i m (by rw [hmc]; exact hm))
    | some r =>
      have hmc : matchedCalls records ((t, ip) :: rest) =
          (t, r.id, ip) :: matchedCalls records rest := by
        simp [matchedCalls, List.filterMap_cons, hf]
      have h0 : updRes k0 r.id ip = none := by
        have := hok 0 (t, r.id, ip) (by rw [hmc]; exact List.getElem?_cons_zero)
        simpa using this
      rw [updateLoop, hf]
      dsimp only
      rw [h0]
      dsimp only
      rw [ih (k0 + 1) (fun i m hm => by
        have := hok (i + 1) m (by rw [hmc, List.getElem?_cons_succ]; exact hm)
        rwa [show k0 + (i + 1) = k0 + 1 + i by omega] at this)]
      rw [hmc]
      simp [callOf, Except.map]

/-- When the first `k` issued calls succeed and the next fails, the loop
issues exactly the first `k + 1` matched calls and aborts with the failing
call's report, attached with the domain and record type. -/
lemma updateLoop_fail (updRes : Nat → String → String → Option Report)
    (domain : String) (records : List DnsEntry) :
    ∀ (pairs : List (DnsRecordType × String)) (k0 k : Nat)
      (m : DnsRecordType × String × String) (e : Report),
      (matchedCalls records pairs)[k]? = some m →
      (∀ i m', i < k → (matchedCalls records pairs)[i]? = some m' →
        updRes (k0 + i) m'.2.1 m'.2.2 = none) →
      updRes (k0 + k) m.2.1 m.2.2 = some e →
      updateLoop updRes domain records k0 pairs =
        ⟨((matchedCalls records pairs).take (k + 1)).map callOf,
         .error ((e.attach ("For domain '" ++ domain ++ "'")).attach
           ("For " ++ m.1.debugStr ++ " record"))⟩ := by
  intro pairs
  induction pairs with
  | nil =>
    intro k0 k m e hm _ _
    simp [matchedCalls] at hm
  | cons p rest ih =>
    obtain ⟨t, ip⟩ := p
    intro k0 k m e hm hpre hfail
    cases hf : records.find? (fun r => r.typ == t) with
    | none =>
      have hmc : matchedCalls records ((t, ip) :: rest) = matchedCalls records rest := by
        simp [matchedCalls, List.filterMap_cons, hf]
      rw [updateLoop, hf, hmc]
      rw [hmc] at hm hpre
      exact ih k0 k m e hm hpre hfail
    | some r =>
      have hmc : matchedCalls records ((t, ip) :: rest) =
          (t, r.id, ip) :: matchedCalls records rest := by
        simp [matchedCalls, List.filterMap_cons, hf]
      cases k with
      | zero =>
        have hm0 : m = (t, r.id, ip) := by
          rw [hmc] at hm
          simpa using hm.symm
        subst hm0
        rw [updateLoop, hf]
        dsimp only
        rw [show updRes k0 r.id ip = some e from by simpa using hfail]
        rw [hmc]
        rfl
      | succ k' =>
        have h0 : updRes k0 r.id ip = none := by
          have := hpre 0 (t, r.id, ip) (by omega)
            (by rw [hmc]; exact List.getElem?_cons_zero)
          simpa using this
        rw [updateLoop, hf]
        dsimp only
        rw [h0]
        dsimp only
        rw [ih (k0 + 1) k' m e
          (by rw [hmc, List.getElem?_cons_succ] at hm; exact hm)
          (fun i m' hi hm' => by
            have := hpre (i + 1) m' (by omega)
              (by rw [hmc, List.getElem?_cons_succ]; exact hm')
            rwa [show k0 + (i + 1) = k0 + 1 + i by omega] at this)
          (by rwa [show k0 + 1 + k' = k0 + (k' + 1) by omega])]
        rw [hmc]
        simp [callOf, Except.map]

/-- Unfolding of the handler past a successful parse and origin check. -/
lemma handle_unfolded (origin : Origin) (listRes : Except Report (List DnsEntry))
    (updRes : Nat → String → String → Option Report) (hostname myip : String)
    (u : ParsedIpUpdate) (hparse : ParsedIpUpdate.fromStr myip = .ok u)
    (hsub : origin.is_subdomain hostname = true) :
    handle_dyndns_request origin listRes updRes hostname myip =
      match (update_record listRes updRes hostname u).result with
      | .error e =>
        ⟨(update_record listRes updRes hostname u).calls,
         .internalError ("failed to update DNS record: " ++ e.message)⟩
      | .ok ips =>
        ⟨(update_record listRes updRes hostname u).calls,
         .ok (String.intercalate "\n" (ips.map (fun it => "good " ++ it)))⟩ := by
  rw [handle_dyndns_request, hparse]
  dsimp only
  rw [if_neg (by simp [hsub])]

/-! ## C1: successful reconciliation -/

/-- C1: with every provider call succeeding, the orchestrator filters the
listed records by the requested hostname, issues exactly one update per
parsed pair whose type has a (first) matching record — skipping pairs
without one and creating nothing, every issued id being a listed record's
id — and answers 200 with the newline-joined `good <address>` lines of the
applied pairs in input order, the body being empty when no pair matched. -/
theorem C1_success_characterization :
    ∀ (origin : Origin) (hostname myip : String) (records : List DnsEntry)
      (updRes : Nat → String → String → Option Report) (u : ParsedIpUpdate),
      ParsedIpUpdate.fromStr myip = .ok u →
      origin.is_subdomain hostname = true →
      (∀ k id ip, updRes k id ip = none) →
      handle_dyndns_request origin (.ok records) updRes hostname myip =
        ⟨(matchedCalls (records.filter (fun r => r.name == hostname))
            u.record_update).map callOf,
         .ok (String.intercalate "\n"
           ((matchedCalls (records.filter (fun r => r.name == hostname))
              u.record_update).map (fun m => "good " ++ m.2.2)))⟩
      ∧ (∀ c ∈ matchedCalls (records.filter (fun r => r.name == hostname))
            u.record_update,
          ∃ rec ∈ records.filter (fun r => r.name == hostname),
            rec.typ = c.1 ∧ rec.id = c.2.1)
      ∧ (matchedCalls (records.filter (fun r => r.name == hostname))
            u.record_update = [] →
          handle_dyndns_request origin (.ok records) updRes hostname myip =
            ⟨[], .ok ""⟩) := by
  intro origin hostname myip records updRes u hparse hsub hall
  have hloop := updateLoop_success updRes hostname
    (records.filter (fun r => r.name == hostname)) u.record_update 0
    (fun i m _ => hall (0 + i) m.2.1 m.2.2)
  have hupd : update_record (.ok records) updRes hostname u =
      ⟨(matchedCalls (records.filter (fun r => r.name == hostname))
          u.record_update).map callOf,
       .ok ((matchedCalls (records.filter (fun r => r.name == hostname))
          u.record_update).map (fun m => m.2.2))⟩ := by
    rw [update_record]
    exact hloop
  have hmain := handle_unfolded origin (.ok records) updRes hostname myip u hparse hsub
  rw [hupd] at hmain
  dsimp only at hmain
  refine ⟨?_, ?_, ?_⟩
  · rw [hmain, List.map_map]
    rfl
  · intro c hc
    rw [matchedCalls, List.mem_filterMap] at hc
    obtain ⟨p, _, hp⟩ := hc
    rw [Option.map_eq_some'] at hp
    obtain ⟨rec, hfind, heq⟩ := hp
    refine ⟨rec, List.mem_of_find?_eq_some hfind, ?_, ?_⟩
    · have := List.find?_some hfind
      rw [beq_iff_eq] at this
      rw [this, ← heq]
    · rw [← heq]
  · intro hempty
    rw [hmain, hempty]
    rfl

/-- C1 witness: one existing A record, a mixed A/AAAA request — exactly one
call, body `good 2.2.2.2`. -/
theorem C1_witness :
    handle_dyndns_request ⟨"example.com"⟩
      (.ok [⟨.A, "1", "h.example.com", "1.1.1.1"⟩])
      (fun _ _ _ => none) "h.example.com" "2.2.2.2,::1" =
      ⟨[("1", "2.2.2.2")], .ok "good 2.2.2.2"⟩ := by
  rw [(C1_success_characterization ⟨"example.com"⟩ "h.example.com" "2.2.2.2,::1"
    [⟨.A, "1", "h.example.com", "1.1.1.1"⟩] (fun _ _ _ => none)
    ⟨[(.A, "2.2.2.2"), (.AAAA, "::1")]⟩ (by decide) (by decide)
    (fun _ _ _ => rfl)).1]
  decide

/-! ## C4: a failing provider call aborts the request -/

/-- Shared: the handler outcome when an issued update call fails. -/
lemma handle_update_failure
    (origin : Origin) (hostname myip : String) (records : List DnsEntry)
    (updRes : Nat → String → String → Option Report) (u : ParsedIpUpdate)
    (k : Nat) (m : DnsRecordType × String × String) (e : Report)
    (hparse : ParsedIpUpdate.fromStr myip = .ok u)
    (hsub : origin.is_subdomain hostname = true)
    (hm : (matchedCalls (records.filter (fun r => r.name == hostname))
      u.record_update)[k]? = some m)
    (hpre : ∀ i m', i < k →
      (matchedCalls (records.filter (fun r => r.name == hostname))
        u.record_update)[i]? = some m' →
      updRes i m'.2.1 m'.2.2 = none)
    (hfail : updRes k m.2.1 m.2.2 = some e) :
    handle_dyndns_request origin (.ok records) updRes hostname myip =
      ⟨((matchedCalls (records.filter (fun r => r.name == hostname))
          u.record_update).take (k + 1)).map callOf,
       .internalError ("failed to update DNS record: " ++ e.message)⟩ := by
  have hloop := updateLoop_fail updRes hostname
    (records.filter (fun r => r.name == hostname)) u.record_update 0 k m e hm
    (fun i m' hi hm' => by simpa using hpre i m' hi hm')
    (by simpa using hfail)
  have hupd : update_record (.ok records) updRes hostname u =
      ⟨((matchedCalls (records.filter (fun r => r.name == hostname))
          u.record_update).take (k + 1)).map callOf,
       .error ((e.attach ("For domain '" ++ hostname ++ "'")).attach
         ("For " ++ m.1.debugStr ++ " record"))⟩ := by
    rw [update_record]
    exact hloop
  have hmain := handle_unfolded origin (.ok records) updRes hostname myip u hparse hsub
  rw [hupd] at hmain
  exact hmain

/-- C4: when the provider rejects the `k`-th issued update after the first
`k` succeeded, the handler issues exactly the first `k + 1` matched calls —
attempting no later pair, repeating and reverting nothing — and responds
500. -/
theorem C4_provider_failure_aborts :
    ∀ (origin : Origin) (hostname myip : String) (records : List DnsEntry)
      (updRes : Nat → String → String → Option Report) (u : ParsedIpUpdate)
      (k : Nat) (m : DnsRecordType × String × String) (e : Report),
      ParsedIpUpdate.fromStr myip = .ok u →
      origin.is_subdomain hostname = true →
      (matchedCalls (records.filter (fun r => r.name == hostname))
        u.record_update)[k]? = some m →
      (∀ i m', i < k →
        (matchedCalls (records.filter (fun r => r.name == hostname))
          u.record_update)[i]? = some m' →
        updRes i m'.2.1 m'.2.2 = none) →
      updRes k m.2.1 m.2.2 = some e →
      handle_dyndns_request origin (.ok records) updRes hostname myip =
        ⟨((matchedCalls (records.filter (fun r => r.name == hostname))
            u.record_update).take (k + 1)).map callOf,
         .internalError ("failed to update DNS record: " ++ e.message)⟩ := by
  intro origin hostname myip records updRes u k m e hparse hsub hm hpre hfail
  exact handle_update_failure origin hostname myip records updRes u k m e
    hparse hsub hm hpre hfail

/-- C4 witness: the second of two matched pairs fails; only the two calls
up to it are issued and the response is a 500. -/
theorem C4_witness :
    handle_dyndns_request ⟨"example.com"⟩
      (.ok [⟨.A, "1", "h.example.com", "1.1.1.1"⟩,
            ⟨.AAAA, "2", "h.example.com", "::2"⟩])
      (fun k _ _ => if k = 0 then none else some (Report.ofMsg "boom"))
      "h.example.com" "2.2.2.2,::1" =
      ⟨[("1", "2.2.2.2"), ("2", "::1")],
       .internalError "failed to update DNS record: boom"⟩ := by
  rw [C4_provider_failure_aborts ⟨"example.com"⟩ "h.example.com" "2.2.2.2,::1"
    [⟨.A, "1", "h.example.com", "1.1.1.1"⟩, ⟨.AAAA, "2", "h.example.com", "::2"⟩]
    (fun k _ _ => if k = 0 then none else some (Report.ofMsg "boom"))
    ⟨[(.A, "2.2.2.2"), (.AAAA, "::1")]⟩ 1 (.AAAA, "2", "::1") (Report.ofMsg "boom")
    (by decide) (by decide) (by decide)
    (fun i m' hi _ => by
      obtain rfl : i = 0 := by omega
      rfl)
    rfl]
  decide

/-! ## C3: provider errors surface as a generic 500 -/

/-- The handler's answer to an erroneous record listing. -/
lemma handle_listError (origin : Origin)
    (updRes : Nat → String → String → Option Report) (hostname myip : String)
    (u : ParsedIpUpdate) (e : Report)
    (hparse : ParsedIpUpdate.fromStr myip = .ok u)
    (hsub : origin.is_subdomain hostname = true) :
    handle_dyndns_request origin (.error e) updRes hostname myip =
      ⟨[], .internalError ("failed to update DNS record: " ++ e.message)⟩ := by
  have hmain := handle_unfolded origin (.error e) updRes hostname myip u hparse hsub
  rw [show update_record (.error e) updRes hostname u = ⟨[], .error e⟩ from rfl] at hmain
  exact hmain

/-- C3: every provider failure — a rejected listing, any zone-resolution
failure, or a rejected update — produces a 500 whose body is the fixed
wrapper and the report's fixed message; the HTTP status, response body,
origin and record id of the failure, though attached for logging, never
reach the client body, which is constant in them. -/
theorem C3_provider_errors_generic :
    ∀ (origin : Origin) (hostname myip : String) (u : ParsedIpUpdate),
      ParsedIpUpdate.fromStr myip = .ok u →
      origin.is_subdomain hostname = true →
      (∀ (o2 : Origin) (status respBody : String) updRes,
        handle_dyndns_request origin
          (.error (cfListFailedReport o2 status respBody)) updRes hostname myip =
          ⟨[], .internalError
            "failed to update DNS record: Failed to list DNS records from Cloudflare"⟩)
      ∧ (∀ (o2 : Origin) (q : ZoneQueryOutcome) (r : Report) updRes,
          get_zone_id o2 q = .error r →
          handle_dyndns_request origin (.error r) updRes hostname myip =
            ⟨[], .internalError ("failed to update DNS record: " ++ r.message)⟩
          ∧ r.message ∈ ["Listing records", "Parsing Cloudflare zones response",
              "Multiple zones found for origin", "No zone found for origin"])
      ∧ (∀ (records : List DnsEntry) (k : Nat)
          (m : DnsRecordType × String × String) (o2 : Origin)
          (rid st bd : String) updRes,
          (matchedCalls (records.filter (fun r => r.name == hostname))
            u.record_update)[k]? = some m →
          (∀ i m', i < k →
            (matchedCalls (records.filter (fun r => r.name == hostname))
              u.record_update)[i]? = some m' →
            updRes i m'.2.1 m'.2.2 = none) →
          updRes k m.2.1 m.2.2 = some (cfUpdateFailedReport o2 rid st bd) →
          handle_dyndns_request origin (.ok records) updRes hostname myip =
            ⟨((matchedCalls (records.filter (fun r => r.name == hostname))
                u.record_update).take (k + 1)).map callOf,
             .internalError
               "failed to update DNS record: Failed to update DNS record in Cloudflare"⟩)
      ∧ (∀ (o2 : Origin) (rid st bd : String),
          (cfUpdateFailedReport o2 rid st bd).attached =
            ["origin: '" ++ o2.val ++ "'", "record_id: '" ++ rid ++ "'",
             "status: " ++ st, "response: " ++ bd]) := by
  intro origin hostname myip u hparse hsub
  refine ⟨?_, ?_, ?_, fun o2 rid st bd => rfl⟩
  · intro o2 status respBody updRes
    rw [handle_listError origin updRes hostname myip u
      (cfListFailedReport o2 status respBody) hparse hsub]
    rfl
  · intro o2 q r updRes herr
    refine ⟨handle_listError origin updRes hostname myip u r hparse hsub, ?_⟩
    cases q with
    | sendFailure e =>
      cases herr
      simp [Report.context, Report.attach]
    | parseFailure e =>
      cases herr
      simp [Report.context, Report.attach]
    | success zones =>
      rw [get_zone_id] at herr
      by_cases hlen : 1 < zones.length
      · rw [if_pos hlen] at herr
        cases herr
        simp [Report.ofMsg, Report.attach]
      · rw [if_neg hlen] at herr
        cases hfind : zones.find? (fun z => z.name == o2.val) with
        | none =>
          rw [hfind] at herr
          cases herr
          simp [Report.ofMsg, Report.attach]
        | some z =>
          rw [hfind] at herr
          exact absurd herr (by simp)
  · intro records k m o2 rid st bd updRes hm hpre hfail
    rw [handle_update_failure origin hostname myip records updRes u k m
      (cfUpdateFailedReport o2 rid st bd) hparse hsub hm hpre hfail]
    rfl

/-- C3 witness: a rejected listing whose detail is a secret never reaches
the client body. -/
theorem C3_witness :
    handle_dyndns_request ⟨"example.com"⟩
      (.error (cfListFailedReport ⟨"other.org"⟩ "403 Forbidden" "secret detail"))
      (fun _ _ _ => none) "h.example.com" "2.2.2.2" =
      ⟨[], .internalError
        "failed to update DNS record: Failed to list DNS records from Cloudflare"⟩ :=
  (C3_provider_errors_generic ⟨"example.com"⟩ "h.example.com" "2.2.2.2"
    ⟨[(.A, "2.2.2.2")]⟩ (by decide) (by decide)).1
    ⟨"other.org"⟩ "403 Forbidden" "secret detail" (fun _ _ _ => none)

/-! ## Digit rendering: correctness of `reprAux` -/

/-- The sixteen digit characters: hexadecimal class, values, and
distinctness from the separators. -/
lemma hexDigitChar_facts : ∀ n : Fin 16,
    isHexChar (hexDigitChar n) = true ∧ hexVal (hexDigitChar n) = n
    ∧ hexDigitChar n ≠ ':' ∧ hexDigitChar n ≠ '.' := by decide

/-- Digit strings are never empty once the fuel suffices. -/
lemma reprAux_ne_nil (base : Nat) : ∀ fuel n, n < fuel → reprAux base fuel n ≠ [] := by
  intro fuel
  cases fuel with
  | zero => intro n h; omega
  | succ fuel =>
    intro n _
    rw [reprAux]
    by_cases h : n < base
    · simp [h]
    · simp [h, reprAux_ne_nil]

/-- Every character of a base-16 rendering is a hex digit and neither
separator. -/
lemma reprAux16_all : ∀ fuel n, ∀ c ∈ reprAux 16 fuel n,
    isHexChar c = true ∧ c ≠ ':' ∧ c ≠ '.' := by
  intro fuel
  induction fuel with
  | zero => intro n c hc; cases hc
  | succ fuel ih =>
    intro n c hc
    rw [reprAux] at hc
    by_cases h : n < 16
    · rw [if_pos h] at hc
      have hc' : c = hexDigitChar n := by simpa using hc
      subst hc'
      exact ⟨(hexDigitChar_facts ⟨n, h⟩).1, (hexDigitChar_facts ⟨n, h⟩).2.2.1,
        (hexDigitChar_facts ⟨n, h⟩).2.2.2⟩
    · rw [if_neg h] at hc
      rcases List.mem_append.mp hc with hc | hc
      · exact ih _ c hc
      · have hm : n % 16 < 16 := Nat.mod_lt _ (by omega)
        have hc' : c = hexDigitChar (n % 16) := by simpa using hc
        subst hc'
        exact ⟨(hexDigitChar_facts ⟨n % 16, hm⟩).1,
          (hexDigitChar_facts ⟨n % 16, hm⟩).2.2.1,
          (hexDigitChar_facts ⟨n % 16, hm⟩).2.2.2⟩

/-- The hexadecimal fold evaluates a base-16 rendering back to its value. -/
lemma reprAux16_foldl : ∀ fuel n acc, n < fuel →
    (reprAux 16 fuel n).foldl (fun a c => a * 16 + hexVal c) acc =
      acc * 16 ^ (reprAux 16 fuel n).length + n := by
  intro fuel
  induction fuel with
  | zero => intro n acc h; omega
  | succ fuel ih =>
    intro n acc hn
    rw [reprAux]
    by_cases h : n < 16
    · rw [if_pos h]
      simp [(hexDigitChar_facts ⟨n, h⟩).2.1]
    · rw [if_neg h]
      have hdiv : n / 16 < fuel := by
        have h1 : n / 16 < n := Nat.div_lt_self (by omega) (by omega)
        omega
      rw [List.foldl_append, ih _ acc hdiv]
      have hm : n % 16 < 16 := Nat.mod_lt _ (by omega)
      simp only [List.foldl_cons, List.foldl_nil, List.length_append,
        List.length_singleton, (hexDigitChar_facts ⟨n % 16, hm⟩).2.1]
      rw [pow_succ]
      have : (acc * 16 ^ (reprAux 16 fuel (n / 16)).length + n / 16) * 16 + n % 16 =
          acc * (16 ^ (reprAux 16 fuel (n / 16)).length * 16) + (n / 16 * 16 + n % 16) := by
        ring
      rw [this]
      congr 1
      omega

/-- A base-16 rendering of a value below `16 ^ k` has at most `k` digits. -/
lemma reprAux16_length : ∀ fuel n k, n < fuel → n < 16 ^ k → 1 ≤ k →
    (reprAux 16 fuel n).length ≤ k := by
  intro fuel
  induction fuel with
  | zero => intro n k h; omega
  | succ fuel ih =>
    intro n k hn hk h1
    rw [reprAux]
    by_cases h : n < 16
    · simp [h, h1]
    · rw [if_neg h]
      have hk2 : 2 ≤ k := by
        by_contra hlt
        have hk1 : k = 1 := by omega
        subst hk1
        simp at hk
        omega
      have hdiv : n / 16 < fuel := by
        have := Nat.div_lt_self (show 0 < n by omega) (show 1 < 16 by omega)
        omega
      have hdivk : n / 16 < 16 ^ (k - 1) := by
        rw [Nat.div_lt_iff_lt_mul (by omega)]
        calc n < 16 ^ k := hk
        _ = 16 ^ (k - 1) * 16 := by
          rw [← pow_succ]
          congr 1
          omega
      have := ih (n / 16) (k - 1) hdiv hdivk (by omega)
      simp only [List.length_append, List.length_singleton]
      omega

/-- `takeWhile`/`dropWhile` split an appended list at the boundary. -/
lemma takeWhile_dropWhile_split {p : Char → Bool} : ∀ (xs rest : List Char),
    (∀ x ∈ xs, p x = true) →
    (∀ r rs, rest = r :: rs → p r = false) →
    (xs ++ rest).takeWhile p = xs ∧ (xs ++ rest).dropWhile p = rest := by
  intro xs
  induction xs with
  | nil =>
    intro rest _ hrest
    cases rest with
    | nil => exact ⟨rfl, rfl⟩
    | cons r rs =>
      rw [List.nil_append]
      constructor
      · rw [List.takeWhile_cons, if_neg (by simp [hrest r rs rfl])]
      · rw [List.dropWhile_cons, if_neg (by simp [hrest r rs rfl])]
  | cons x xs ih =>
    intro rest hall hrest
    have hx : p x = true := hall x (by simp)
    obtain ⟨h1, h2⟩ := ih rest (fun y hy => hall y (by simp [hy])) hrest
    constructor
    · rw [List.cons_append, List.takeWhile_cons, if_pos (by simp [hx]), h1]
    · rw [List.cons_append, List.dropWhile_cons, if_pos (by simp [hx]), h2]

/-- Reading a hex group from a canonical rendering followed by a boundary
recovers the value. -/
lemma readHexGroup_repr (n : Nat) (rest : List Char) (hn : n < 65536)
    (hrest : ∀ r rs, rest = r :: rs → isHexChar r = false) :
    readHexGroup (hexRepr n ++ rest) = some (n, rest) := by
  obtain ⟨h1, h2⟩ := takeWhile_dropWhile_split (hexRepr n) rest
    (fun c hc => (reprAux16_all _ _ c hc).1) hrest
  have hne : hexRepr n ≠ [] := reprAux_ne_nil 16 (n + 1) n (by omega)
  have hlen : (hexRepr n).length ≤ 4 :=
    reprAux16_length (n + 1) n 4 (by omega)
      (by have h16 : (16 : Nat) ^ 4 = 65536 := by norm_num
          omega)
      (by omega)
  have hfold : (hexRepr n).foldl (fun a c => a * 16 + hexVal c) 0 = n := by
    have h0 := reprAux16_foldl (n + 1) n 0 (by omega)
    simpa [hexRepr] using h0
  rw [readHexGroup]
  simp only [h1, h2]
  rw [if_neg (by simp [hne]), if_neg (by omega), hfold]

set_option maxRecDepth 4096 in
/-- The 256 octet renderings: all digits, short, no bad leading zero, and
the decimal fold recovers the value. -/
lemma decRepr_facts : ∀ n : Fin 256,
    (∀ c ∈ decRepr (n : Nat), Char.isDigit c = true)
    ∧ (decRepr (n : Nat)).length ≤ 3
    ∧ ((decRepr (n : Nat)).head? = some '0' → (decRepr (n : Nat)).length = 1)
    ∧ (decRepr (n : Nat)).foldl (fun a c => a * 10 + (c.toNat - 48)) 0 = (n : Nat)
    ∧ decRepr (n : Nat) ≠ [] := by decide

/-- Reading an octet from a canonical rendering followed by a boundary
recovers the value. -/
lemma readOctet_repr (n : Nat) (rest : List Char) (hn : n < 256)
    (hrest : ∀ r rs, rest = r :: rs → Char.isDigit r = false) :
    readOctet (decRepr n ++ rest) = some (n, rest) := by
  obtain ⟨hall, hlen, hzero, hfold, hne⟩ := decRepr_facts ⟨n, hn⟩
  dsimp only at hall hlen hzero hfold hne
  obtain ⟨h1, h2⟩ := takeWhile_dropWhile_split (decRepr n) rest hall hrest
  rw [readOctet]
  simp only [h1, h2]
  rw [if_neg (by simp [hne]), if_neg (by omega),
    if_neg (by rintro ⟨hh, hl⟩; exact absurd (hzero hh) (by omega)),
    hfold, if_neg (by omega)]

/-! ## IPv4 reading: roundtrip and failure without a dot -/

/-- Consuming the expected character. -/
lemma expectChar_cons_self (c : Char) (tl : List Char) :
    expectChar c (c :: tl) = some tl := by
  simp [expectChar]

/-- Reading a canonical dotted quad followed by a boundary recovers the
four octets. -/
lemma readIpv4Chars_repr (a b c d : Nat) (rest : List Char)
    (ha : a < 256) (hb : b < 256) (hc : c < 256) (hd : d < 256)
    (hrest : ∀ r rs, rest = r :: rs → Char.isDigit r = false) :
    readIpv4Chars (ipv4Chars a b c d ++ rest) = some ((a, b, c, d), rest) := by
  have hdot : ∀ (tl : List Char) r rs, ('.' :: tl : List Char) = r :: rs →
      Char.isDigit r = false := by
    intro tl r rs h
    cases h
    rfl
  have hshape : ipv4Chars a b c d ++ rest =
      decRepr a ++ '.' :: (decRepr b ++ '.' :: (decRepr c ++ '.' :: (decRepr d ++ rest))) := by
    simp [ipv4Chars]
  have e3 : readOctet (decRepr d ++ rest) = some (d, rest) :=
    readOctet_repr d rest hd hrest
  have e2 : readOctet (decRepr c ++ '.' :: (decRepr d ++ rest)) =
      some (c, '.' :: (decRepr d ++ rest)) := readOctet_repr c _ hc (hdot _)
  have e1 : readOctet (decRepr b ++ '.' :: (decRepr c ++ '.' :: (decRepr d ++ rest))) =
      some (b, '.' :: (decRepr c ++ '.' :: (decRepr d ++ rest))) :=
    readOctet_repr b _ hb (hdot _)
  have e0 : readOctet
      (decRepr a ++ '.' :: (decRepr b ++ '.' :: (decRepr c ++ '.' :: (decRepr d ++ rest)))) =
      some (a, '.' :: (decRepr b ++ '.' :: (decRepr c ++ '.' :: (decRepr d ++ rest)))) :=
    readOctet_repr a _ ha (hdot _)
  rw [hshape, readIpv4Chars, e0]
  dsimp only
  rw [expectChar_cons_self]
  dsimp only
  rw [e1]
  dsimp only
  rw [expectChar_cons_self]
  dsimp only
  rw [e2]
  dsimp only
  rw [expectChar_cons_self]
  dsimp only
  rw [e3]

/-- The full IPv4 parse of a canonical dotted quad. -/
lemma parseIpv4_repr (a b c d : Nat)
    (ha : a < 256) (hb : b < 256) (hc : c < 256) (hd : d < 256) :
    parseIpv4 (ipv4Chars a b c d) = some (a, b, c, d) := by
  have h := readIpv4Chars_repr a b c d [] ha hb hc hd (by intro r rs h; cases h)
  rw [List.append_nil] at h
  rw [parseIpv4, h]

/-- A successful octet read splits its input at the digit boundary. -/
lemma readOctet_split {cs : List Char} {v rest}
    (h : readOctet cs = some (v, rest)) :
    cs = cs.takeWhile Char.isDigit ++ rest ∧ v < 256 := by
  rw [readOctet] at h
  dsimp only at h
  by_cases h1 : (cs.takeWhile Char.isDigit).isEmpty
  · rw [if_pos h1] at h; exact absurd h (by simp)
  · rw [if_neg h1] at h
    by_cases h2 : 3 < (cs.takeWhile Char.isDigit).length
    · rw [if_pos h2] at h; exact absurd h (by simp)
    · rw [if_neg h2] at h
      by_cases h3 : (cs.takeWhile Char.isDigit).head? = some '0'
          ∧ 1 < (cs.takeWhile Char.isDigit).length
      · rw [if_pos h3] at h; exact absurd h (by simp)
      · rw [if_neg h3] at h
        by_cases h4 : 255 <
            (cs.takeWhile Char.isDigit).foldl (fun a c => a * 10 + (c.toNat - 48)) 0
        · rw [if_pos h4] at h; exact absurd h (by simp)
        · rw [if_neg h4] at h
          cases h
          exact ⟨(List.takeWhile_append_dropWhile _ _).symm, by omega⟩

/-- A successful IPv4 read implies the input contains a dot. -/
lemma readIpv4Chars_mem_dot : ∀ {cs : List Char} {x},
    readIpv4Chars cs = some x → '.' ∈ cs := by
  intro cs x h
  rw [readIpv4Chars] at h
  cases ho : readOctet cs with
  | none => rw [ho] at h; cases h
  | some vr =>
    obtain ⟨v, r⟩ := vr
    rw [ho] at h
    dsimp only at h
    have hsplit := (readOctet_split ho).1
    cases r with
    | nil => rw [show expectChar '.' [] = none from rfl] at h; cases h
    | cons r0 rs =>
      by_cases hr : r0 = '.'
      · subst hr
        rw [hsplit]
        exact List.mem_append.mpr (.inr (by simp))
      · rw [show expectChar '.' (r0 :: rs) = none from by
          simp [expectChar, hr]] at h
        cases h

/-- Without a dot in the input, the IPv4 reader fails. -/
lemma readIpv4Chars_no_dot {cs : List Char} (h : '.' ∉ cs) :
    readIpv4Chars cs = none := by
  cases hx : readIpv4Chars cs with
  | none => rfl
  | some x => exact absurd (readIpv4Chars_mem_dot hx) h

/-- Without a dot in the input, the embedded IPv4 reader fails. -/
lemma readIpv4Embedded_no_dot {cs : List Char} (h : '.' ∉ cs) :
    readIpv4Embedded cs = none := by
  rw [readIpv4Embedded, readIpv4Chars_no_dot h]

/-! ## `readGroups`: stopping and reading formatted groups -/

/-- An octet read fails on a non-digit head. -/
lemma readOctet_not_digit {c : Char} {cs : List Char} (h : Char.isDigit c = false) :
    readOctet (c :: cs) = none := by
  simp [readOctet, List.takeWhile_cons, h]

/-- A hex-group read fails on a non-hex head. -/
lemma readHexGroup_not_hex {c : Char} {cs : List Char} (h : isHexChar c = false) :
    readHexGroup (c :: cs) = none := by
  simp [readHexGroup, List.takeWhile_cons, h]

/-- An IPv4 read fails on a non-digit head. -/
lemma readIpv4Chars_not_digit {c : Char} {cs : List Char} (h : Char.isDigit c = false) :
    readIpv4Chars (c :: cs) = none := by
  rw [readIpv4Chars, readOctet_not_digit h]

/-- An empty input fails both elementary readers. -/
lemma readOctet_nil : readOctet [] = none := rfl

/-- `read_separator` at a positive index demands the separator first. -/
lemma readSep_succ {α : Type _} {f : List Char → Option (α × List Char)} (i : Nat)
    (hi : i ≠ 0) (tl : List Char) :
    readSep ':' i f (':' :: tl) = f tl := by
  cases i with
  | zero => exact absurd rfl hi
  | succ j => simp [readSep]

/-- `read_separator` either runs the reader on the input or on its tail
past a colon, or fails. -/
lemma readSep_none {α : Type _} {f : List Char → Option (α × List Char)} (i : Nat)
    (rest : List Char)
    (h0 : f rest = none)
    (h1 : ∀ c tl, rest = c :: tl → c = ':' → f tl = none) :
    readSep ':' i f rest = none := by
  cases i with
  | zero => exact h0
  | succ j =>
    cases rest with
    | nil => rfl
    | cons c tl =>
      rw [readSep]
      by_cases hcolon : c = ':'
      · rw [if_pos hcolon]; exact h1 c tl rfl hcolon
      · rw [if_neg hcolon]

/-- On an input that is empty or starts with a double colon, `read_groups`
reads nothing. -/
lemma readGroups_stop : ∀ (i rem : Nat) (rest : List Char),
    (rest = [] ∨ ∃ tl, rest = ':' :: ':' :: tl) →
    readGroups i rem rest = ([], false, rest) := by
  intro i rem rest hrest
  cases rem with
  | zero => rfl
  | succ rem' =>
    have hiv : readSep ':' i readIpv4Embedded rest = none := by
      rcases hrest with rfl | ⟨tl, rfl⟩
      · exact readSep_none i [] rfl (by intro c tl h; cases h)
      · refine readSep_none i _ ?_ ?_
        · rw [readIpv4Embedded,
            readIpv4Chars_not_digit (c := ':') (by decide)]
        · intro c tl' h hc
          cases h
          rw [readIpv4Embedded,
            readIpv4Chars_not_digit (c := ':') (by decide)]
    have hhx : readSep ':' i readHexGroup rest = none := by
      rcases hrest with rfl | ⟨tl, rfl⟩
      · exact readSep_none i [] rfl (by intro c tl h; cases h)
      · refine readSep_none i _ ?_ ?_
        · exact readHexGroup_not_hex (c := ':') (by decide)
        · intro c tl' h hc
          cases h
          exact readHexGroup_not_hex (c := ':') (by decide)
    rw [readGroups]
    rw [show (if 1 ≤ rem' then readSep ':' i readIpv4Embedded rest else none) = none by
      by_cases h1 : 1 ≤ rem'
      · rw [if_pos h1, hiv]
      · rw [if_neg h1]]
    rw [hhx]

/-- Every character of a formatted group list is a hex digit or a colon. -/
lemma groupsChars_classes : ∀ (b : Bool) (vs : List Nat) (c : Char),
    c ∈ groupsChars b vs → isHexChar c = true ∨ c = ':' := by
  intro b vs
  induction vs generalizing b with
  | nil => intro c hc; cases b <;> cases hc
  | cons v vs ih =>
    intro c hc
    cases b with
    | false =>
      rw [groupsChars] at hc
      rcases List.mem_append.mp hc with hc | hc
      · exact .inl (reprAux16_all _ _ c hc).1
      · exact ih true c hc
    | true =>
      rw [groupsChars] at hc
      rcases List.mem_cons.mp hc with rfl | hc
      · exact .inr rfl
      · rcases List.mem_append.mp hc with hc | hc
        · exact .inl (reprAux16_all _ _ c hc).1
        · exact ih true c hc

/-- No dot occurs among formatted groups. -/
lemma groupsChars_no_dot (b : Bool) (vs : List Nat) : '.' ∉ groupsChars b vs := by
  intro h
  rcases groupsChars_classes b vs '.' h with h | h
  · exact absurd h (by decide)
  · exact absurd h (by decide)

/-- Reading formatted groups: `read_groups` consumes exactly the groups of
a canonical rendering and stops at the boundary. -/
lemma readGroups_fmt : ∀ (vs : List Nat) (i rem : Nat) (rest : List Char),
    vs.length ≤ rem →
    (∀ v ∈ vs, v < 65536) →
    ('.' ∉ rest) →
    (rest = [] ∨ ∃ tl, rest = ':' :: ':' :: tl) →
    readGroups i rem (groupsChars (i != 0) vs ++ rest) = (vs, false, rest) := by
  intro vs
  induction vs with
  | nil =>
    intro i rem rest _ _ _ hstop
    have : groupsChars (i != 0) [] = [] := by cases (i != 0) <;> rfl
    rw [this, List.nil_append]
    exact readGroups_stop i rem rest hstop
  | cons v vs ih =>
    intro i rem rest hlen hval hnd hstop
    cases rem with
    | zero => simp at hlen
    | succ rem' =>
      have hvlt : v < 65536 := hval v (by simp)
      -- the rest of the characters after this group's digits
      have hnd2 : '.' ∉ groupsChars true vs ++ rest := by
        intro h
        rcases List.mem_append.mp h with h | h
        · exact groupsChars_no_dot true vs h
        · exact hnd h
      have hbound : ∀ r rs, groupsChars true vs ++ rest = r :: rs →
          isHexChar r = false := by
        intro r rs h
        cases vs with
        | cons w ws =>
          rw [groupsChars, List.cons_append] at h
          cases h
          decide
        | nil =>
          rw [show groupsChars true [] = [] from rfl, List.nil_append] at h
          rcases hstop with rfl | ⟨tl, rfl⟩
          · cases h
          · cases h
            decide
      have hhex : readHexGroup (hexRepr v ++ (groupsChars true vs ++ rest)) =
          some (v, groupsChars true vs ++ rest) :=
        readHexGroup_repr v _ hvlt hbound
      have hiv : ∀ cs : List Char, '.' ∉ cs → readIpv4Embedded cs = none :=
        fun cs h => readIpv4Embedded_no_dot h
      have hndv : '.' ∉ hexRepr v ++ (groupsChars true vs ++ rest) := by
        intro h
        rcases List.mem_append.mp h with h | h
        · exact absurd ((reprAux16_all _ _ _ h).2.2) (by simp)
        · exact hnd2 h
      have hrec := ih (i + 1) rem' rest (by simpa using hlen)
        (fun w hw => hval w (by simp [hw])) hnd hstop
      have hsucc : ((i + 1 : Nat) != 0) = true := by simp
      rw [hsucc] at hrec
      by_cases hi : i = 0
      · subst hi
        have hshape : groupsChars ((0 : Nat) != 0) (v :: vs) ++ rest =
            hexRepr v ++ (groupsChars true vs ++ rest) := by
          rw [show ((0 : Nat) != 0) = false from rfl, groupsChars, List.append_assoc]
        rw [hshape, readGroups]
        rw [show (if 1 ≤ rem' then
            readSep ':' 0 readIpv4Embedded (hexRepr v ++ (groupsChars true vs ++ rest))
            else none) = none by
          by_cases h1 : 1 ≤ rem'
          · rw [if_pos h1]
            exact hiv _ hndv
          · rw [if_neg h1]]
        rw [show readSep ':' 0 readHexGroup (hexRepr v ++ (groupsChars true vs ++ rest)) =
          some (v, groupsChars true vs ++ rest) from hhex]
        dsimp only
        rw [hrec]
      · have hshape : groupsChars (i != 0) (v :: vs) ++ rest =
            ':' :: (hexRepr v ++ (groupsChars true vs ++ rest)) := by
          rw [show (i != 0) = true by simpa using hi, groupsChars]
          simp [List.append_assoc]
        rw [hshape, readGroups]
        rw [show (if 1 ≤ rem' then
            readSep ':' i readIpv4Embedded
              (':' :: (hexRepr v ++ (groupsChars true vs ++ rest)))
            else none) = none by
          by_cases h1 : 1 ≤ rem'
          · rw [if_pos h1, readSep_succ i hi]
            exact hiv _ hndv
          · rw [if_neg h1]]
        rw [readSep_succ i hi, hhex]
        dsimp only
        rw [hrec]

/-- The inner reader of a successful `read_separator` ran successfully on
some input. -/
lemma readSep_inner_some {α : Type _} {f : List Char → Option (α × List Char)} {i : Nat}
    {cs : List Char} {x : α × List Char} (h : readSep ':' i f cs = some x) :
    ∃ cs', f cs' = some x := by
  cases i with
  | zero => exact ⟨cs, h⟩
  | succ j =>
    cases cs with
    | nil => cases h
    | cons c tl =>
      rw [readSep] at h
      by_cases hc : c = ':'
      · rw [if_pos hc] at h
        exact ⟨tl, h⟩
      · rw [if_neg hc] at h
        cases h

/-- A successful IPv4 read yields octets below 256. -/
lemma readIpv4Chars_bounds : ∀ {cs : List Char} {a b c d : Nat} {rest : List Char},
    readIpv4Chars cs = some ((a, b, c, d), rest) →
    a < 256 ∧ b < 256 ∧ c < 256 ∧ d < 256 := by
  intro cs a b c d rest h
  rw [readIpv4Chars] at h
  cases h1 : readOctet cs with
  | none => rw [h1] at h; cases h
  | some p1 =>
    obtain ⟨v1, r1⟩ := p1
    rw [h1] at h
    dsimp only at h
    cases he1 : expectChar '.' r1 with
    | none => rw [he1] at h; cases h
    | some q1 =>
      rw [he1] at h
      dsimp only at h
      cases h2 : readOctet q1 with
      | none => rw [h2] at h; cases h
      | some p2 =>
        obtain ⟨v2, r2⟩ := p2
        rw [h2] at h
        dsimp only at h
        cases he2 : expectChar '.' r2 with
        | none => rw [he2] at h; cases h
        | some q2 =>
          rw [he2] at h
          dsimp only at h
          cases h3 : readOctet q2 with
          | none => rw [h3] at h; cases h
          | some p3 =>
            obtain ⟨v3, r3⟩ := p3
            rw [h3] at h
            dsimp only at h
            cases he3 : expectChar '.' r3 with
            | none => rw [he3] at h; cases h
            | some q3 =>
              rw [he3] at h
              dsimp only at h
              cases h4 : readOctet q3 with
              | none => rw [h4] at h; cases h
              | some p4 =>
                obtain ⟨v4, r4⟩ := p4
                rw [h4] at h
                dsimp only at h
                cases h
                exact ⟨(readOctet_split h1).2, (readOctet_split h2).2,
                  (readOctet_split h3).2, (readOctet_split h4).2⟩

/-- A successfully read embedded IPv4 address yields two groups below
`2 ^ 16`. -/
lemma readIpv4Embedded_bounds {cs : List Char} {g1 g2 : Nat} {rest : List Char}
    (h : readIpv4Embedded cs = some ((g1, g2), rest)) :
    g1 < 65536 ∧ g2 < 65536 := by
  rw [readIpv4Embedded] at h
  cases hip : readIpv4Chars cs with
  | none => rw [hip] at h; cases h
  | some x =>
    obtain ⟨⟨a, b, c, d⟩, r⟩ := x
    rw [hip] at h
    dsimp only at h
    cases h
    obtain ⟨ha, hb, hc, hd⟩ := readIpv4Chars_bounds hip
    constructor <;> omega

/-- A successfully read hex group is below `2 ^ 16`. -/
lemma readHexGroup_lt {cs : List Char} {g : Nat} {rest : List Char}
    (h : readHexGroup cs = some (g, rest)) : g < 65536 := by
  rw [readHexGroup] at h
  by_cases h1 : (cs.takeWhile isHexChar).isEmpty
  · rw [if_pos h1] at h; cases h
  · rw [if_neg h1] at h
    by_cases h2 : 4 < (cs.takeWhile isHexChar).length
    · rw [if_pos h2] at h; cases h
    · rw [if_neg h2] at h
      cases h
      have hdig : ∀ c ∈ cs.takeWhile isHexChar, hexVal c < 16 := by
        intro c hcmem
        have hhc := List.mem_takeWhile_imp hcmem
        rw [isHexChar] at hhc
        rw [hexVal]
        by_cases hd : c.isDigit
        · rw [if_pos hd]
          simp only [Char.isDigit, Bool.and_eq_true, decide_eq_true_eq] at hd
          have hu : c.toNat ≤ 57 := hd.2
          omega
        · rw [if_neg hd]
          simp only [hd, Bool.false_or, Bool.or_eq_true,
            Bool.and_eq_true, decide_eq_true_eq] at hhc
          by_cases hl : ('a' ≤ c && c ≤ 'f')
          · rw [if_pos hl]
            simp only [Bool.and_eq_true, decide_eq_true_eq, Char.le_def] at hl
            have hu1 : 97 ≤ c.toNat := hl.1
            have hu2 : c.toNat ≤ 102 := hl.2
            omega
          · rw [if_neg hl]
            rcases hhc with hhc | hhc
            · refine absurd ?_ hl
              simp only [Bool.and_eq_true, decide_eq_true_eq]
              exact hhc
            · rcases hhc with ⟨hA, hF⟩
              rw [Char.le_def] at hA hF
              have hu1 : 65 ≤ c.toNat := hA
              have hu2 : c.toNat ≤ 70 := hF
              omega
      have hfb : ∀ (ds : List Char) (acc : Nat), (∀ c ∈ ds, hexVal c < 16) →
          ds.foldl (fun a c => a * 16 + hexVal c) acc < (acc + 1) * 16 ^ ds.length := by
        intro ds
        induction ds with
        | nil => intro acc _; simp
        | cons c ds ihd =>
          intro acc hall
          rw [List.foldl_cons]
          calc (ds.foldl (fun a c => a * 16 + hexVal c) (acc * 16 + hexVal c))
              < (acc * 16 + hexVal c + 1) * 16 ^ ds.length :=
                ihd _ (fun x hx => hall x (by simp [hx]))
            _ ≤ ((acc + 1) * 16) * 16 ^ ds.length := by
                have hvc : hexVal c < 16 := hall c (by simp)
                have h16 : acc * 16 + hexVal c + 1 ≤ (acc + 1) * 16 := by nlinarith
                exact Nat.mul_le_mul_right _ h16
            _ = (acc + 1) * 16 ^ (c :: ds).length := by
                rw [List.length_cons, pow_succ]
                ring
      have hv := hfb (cs.takeWhile isHexChar) 0 hdig
      have hle : (16 : Nat) ^ (cs.takeWhile isHexChar).length ≤ 16 ^ 4 :=
        Nat.pow_le_pow_right (by omega) (by omega)
      have h164 : (16 : Nat) ^ 4 = 65536 := by norm_num
      omega

/-- `read_groups` reads at most `rem` groups, each below `2 ^ 16`. -/
lemma readGroups_size : ∀ (rem i : Nat) (cs : List Char),
    (readGroups i rem cs).1.length ≤ rem ∧
    ∀ g ∈ (readGroups i rem cs).1, g < 65536 := by
  intro rem
  induction rem with
  | zero => intro i cs; exact ⟨by simp [readGroups], by simp [readGroups]⟩
  | succ rem' ih =>
    intro i cs
    rw [readGroups]
    cases hiv : (if 1 ≤ rem' then readSep ':' i readIpv4Embedded cs else none) with
    | some gr =>
      obtain ⟨⟨g1, g2⟩, rest⟩ := gr
      dsimp only
      have hrem : 1 ≤ rem' := by
        by_contra hno
        rw [if_neg hno] at hiv
        cases hiv
      rw [if_pos hrem] at hiv
      obtain ⟨cs2, hcs2⟩ := readSep_inner_some hiv
      obtain ⟨h1, h2⟩ := readIpv4Embedded_bounds hcs2
      refine ⟨by simp; omega, ?_⟩
      intro g hg
      rcases List.mem_cons.mp hg with rfl | hg
      · exact h1
      · rcases List.mem_cons.mp hg with rfl | hg
        · exact h2
        · exact absurd hg (List.not_mem_nil g)
    | none =>
      dsimp only
      cases hhx : readSep ':' i readHexGroup cs with
      | none => exact ⟨by simp, by simp⟩
      | some gr =>
        obtain ⟨g, rest⟩ := gr
        dsimp only
        obtain ⟨cs2, hcs2⟩ := readSep_inner_some hhx
        have hglt : g < 65536 := readHexGroup_lt hcs2
        obtain ⟨ihl, ihv⟩ := ih (i + 1) rest
        cases hrg : readGroups (i + 1) rem' rest with
        | mk gs br =>
          obtain ⟨b2, r2⟩ := br
          rw [hrg] at ihl ihv
          dsimp only
          dsimp only at ihl ihv
          refine ⟨by simpa using ihl, ?_⟩
          intro g2 hg2
          rcases List.mem_cons.mp hg2 with rfl | hg2
          · exact hglt
          · exact ihv g2 hg2

/-! ## The zero-run finder -/

/-- Positions `s ≤ j < s + l` of `orig` hold zero. -/
def SegZero (orig : List Nat) (s l : Nat) : Prop :=
  ∀ j, s ≤ j → j < s + l → orig.getD j 1 = 0

/-- The fold invariant of the zero-run finder: the best span always lies
within the processed prefix and covers only zeros. -/
lemma zeroRunGo_spec (orig : List Nat) :
    ∀ (l : List Nat) (i cs cl bs bl : Nat),
      orig.drop i = l → i ≤ orig.length →
      (0 < cl → cs + cl = i) →
      SegZero orig cs cl →
      SegZero orig bs bl →
      bs + bl ≤ i →
      (zeroRunGo l i cs cl bs bl).1 + (zeroRunGo l i cs cl bs bl).2 ≤ orig.length
      ∧ SegZero orig (zeroRunGo l i cs cl bs bl).1 (zeroRunGo l i cs cl bs bl).2 := by
  intro l
  induction l with
  | nil =>
    intro i cs cl bs bl hdrop hle _ _ hbz hbound
    rw [zeroRunGo]
    exact ⟨by omega, hbz⟩
  | cons g rest ih =>
    intro i cs cl bs bl hdrop hle hcur hcz hbz hbound
    have hlt : i < orig.length := by
      by_contra hno
      rw [List.drop_eq_nil_iff.mpr (by omega)] at hdrop
      cases hdrop
    have hdrop' : orig.drop (i + 1) = rest := by
      have : (orig.drop i).drop 1 = orig.drop (i + 1) := List.drop_drop 1 i orig
      rw [hdrop] at this
      simpa using this.symm
    have hgi : orig.getD i 1 = g := by
      have h0 : orig[i]? = some g := by
        have := List.getElem?_drop orig i 0
        rw [hdrop] at this
        simpa using this.symm
      rw [List.getD_eq_getElem?_getD, h0]
      rfl
    rw [zeroRunGo]
    by_cases hg : g = 0
    · rw [if_pos hg]
      have hcs' : 0 < cl + 1 → (if cl = 0 then i else cs) + (cl + 1) = i + 1 := by
        intro _
        by_cases hcl : cl = 0
        · rw [if_pos hcl]; omega
        · rw [if_neg hcl]
          have := hcur (by omega)
          omega
      have hcz' : SegZero orig (if cl = 0 then i else cs) (cl + 1) := by
        intro j hj1 hj2
        by_cases hcl : cl = 0
        · rw [if_pos hcl] at hj1 hj2
          have : j = i := by omega
          subst this
          rw [hgi, hg]
        · rw [if_neg hcl] at hj1 hj2
          have hci := hcur (by omega)
          by_cases hjlt : j < cs + cl
          · exact hcz j hj1 hjlt
          · have : j = i := by omega
            subst this
            rw [hgi, hg]
      by_cases hbl : bl < cl + 1
      · rw [if_pos hbl]
        exact ih (i + 1) _ (cl + 1) _ (cl + 1) hdrop' (by omega) hcs' hcz' hcz'
          (by have := hcs' (by omega); omega)
      · rw [if_neg hbl]
        exact ih (i + 1) _ (cl + 1) bs bl hdrop' (by omega) hcs' hcz' hbz (by omega)
    · rw [if_neg hg]
      exact ih (i + 1) cs 0 bs bl hdrop' (by omega) (by omega)
        (by intro j h1 h2; omega) hbz (by omega)

/-- The zero run lies inside the list and covers only zeros. -/
lemma zeroRun_spec (gs : List Nat) :
    (zeroRun gs).1 + (zeroRun gs).2 ≤ gs.length ∧
    SegZero gs (zeroRun gs).1 (zeroRun gs).2 := by
  refine zeroRunGo_spec gs gs 0 0 0 0 0 rfl (by omega) (by omega) ?_ ?_ (by omega)
  · intro j h1 h2; omega
  · intro j h1 h2; omega

/-- The list splits around its zero run. -/
lemma zeroRun_decompose (gs : List Nat) :
    gs = gs.take (zeroRun gs).1 ++
      List.replicate (zeroRun gs).2 0 ++ gs.drop ((zeroRun gs).1 + (zeroRun gs).2) := by
  obtain ⟨hbound, hzero⟩ := zeroRun_spec gs
  have hmid : (gs.drop (zeroRun gs).1).take (zeroRun gs).2 =
      List.replicate (zeroRun gs).2 0 := by
    rw [List.eq_replicate_iff]
    constructor
    · rw [List.length_take, List.length_drop]
      omega
    · intro b hb
      rw [List.mem_iff_getElem] at hb
      obtain ⟨n, hn, hget⟩ := hb
      have hn2 : n < (zeroRun gs).2 := by
        rw [List.length_take] at hn
        omega
      have hn3 : n < (gs.drop (zeroRun gs).1).length := by
        rw [List.length_drop]
        omega
      rw [List.getElem_take, List.getElem_drop] at hget
      have hz := hzero ((zeroRun gs).1 + n) (by omega) (by omega)
      rw [List.getD_eq_getElem?_getD,
        List.getElem?_eq_getElem (by omega : (zeroRun gs).1 + n < gs.length)] at hz
      simp only [Option.getD_some] at hz
      rw [← hget, hz]
  calc gs = gs.take (zeroRun gs).1 ++ gs.drop (zeroRun gs).1 :=
        (List.take_append_drop _ _).symm
    _ = gs.take (zeroRun gs).1 ++
        ((gs.drop (zeroRun gs).1).take (zeroRun gs).2 ++
          (gs.drop (zeroRun gs).1).drop (zeroRun gs).2) := by
        rw [List.take_append_drop, List.take_append_drop]
        exact (List.take_append_drop _ _).symm
    _ = gs.take (zeroRun gs).1 ++ List.replicate (zeroRun gs).2 0 ++
        gs.drop ((zeroRun gs).1 + (zeroRun gs).2) := by
        rw [hmid, List.drop_drop, List.append_assoc]

/-! ## IPv6: parse shape, display character classes, and the roundtrip -/

/-- A parsed IPv6 address has exactly eight groups, each below `2 ^ 16`. -/
lemma parseIpv6_shape : ∀ {cs : List Char} {gs : List Nat},
    parseIpv6 cs = some gs → gs.length = 8 ∧ ∀ g ∈ gs, g < 65536 := by
  intro cs gs h
  rw [parseIpv6] at h
  cases hr6 : readIpv6Chars cs with
  | none => rw [hr6] at h; cases h
  | some pr =>
    obtain ⟨gs', rest⟩ := pr
    rw [hr6] at h
    cases rest with
    | cons c tl => exact absurd h (by simp)
    | nil =>
      dsimp only at h
      cases h
      rw [readIpv6Chars] at hr6
      cases hrg : readGroups 0 8 cs with
      | mk head br =>
        obtain ⟨hIpv4, rest0⟩ := br
        rw [hrg] at hr6
        dsimp only at hr6
        have hsize := readGroups_size 8 0 cs
        rw [hrg] at hsize
        obtain ⟨hhl, hhb⟩ := hsize
        dsimp only at hhl hhb
        by_cases h8 : head.length = 8
        · rw [if_pos h8] at hr6
          cases hr6
          exact ⟨h8, hhb⟩
        · rw [if_neg h8] at hr6
          cases hIpv4 with
          | true => rw [if_pos (by simp)] at hr6; cases hr6
          | false =>
            rw [if_neg (by simp)] at hr6
            cases rest0 with
            | nil => cases hr6
            | cons c1 tl1 =>
              cases tl1 with
              | nil => cases hr6
              | cons c2 rest2 =>
                dsimp only at hr6
                by_cases hc1 : c1 = ':'
                · rw [if_pos hc1] at hr6
                  by_cases hc2 : c2 = ':'
                  · rw [if_pos hc2] at hr6
                    have htsize := readGroups_size (8 - (head.length + 1)) 0 rest2
                    cases htr : readGroups 0 (8 - (head.length + 1)) rest2 with
                    | mk tail br2 =>
                      obtain ⟨b2, rest3⟩ := br2
                      rw [htr] at hr6 htsize
                      obtain ⟨htl, htb⟩ := htsize
                      dsimp only at htl htb
                      dsimp only at hr6
                      cases hr6
                      constructor
                      · simp only [List.length_append, List.length_replicate]
                        omega
                      · intro g hg
                        rcases List.mem_append.mp hg with hg | hg
                        · rcases List.mem_append.mp hg with hg | hg
                          · exact hhb g hg
                          · rw [List.eq_of_mem_replicate hg]
                            omega
                        · exact htb g hg
                  · rw [if_neg hc2] at hr6; cases hr6
                · rw [if_neg hc1] at hr6; cases hr6

/-- The display of a non-mapped address never contains a dot. -/
lemma ipv6Chars_not_dot {gs : List Nat} (h : isMapped gs = false) :
    '.' ∉ ipv6Chars gs := by
  rw [ipv6Chars, if_neg (by simp [h])]
  by_cases h2 : 1 < (zeroRun gs).2
  · rw [if_pos h2]
    intro hmem
    rcases List.mem_append.mp hmem with hm | hm
    · exact groupsChars_no_dot _ _ hm
    · rcases List.mem_cons.mp hm with hm | hm
      · cases hm
      · rcases List.mem_cons.mp hm with hm | hm
        · cases hm
        · exact groupsChars_no_dot _ _ hm
  · rw [if_neg h2]
    exact groupsChars_no_dot _ _

/-- The display of a non-mapped eight-group address contains a colon. -/
lemma ipv6Chars_has_colon {gs : List Nat} (h8 : gs.length = 8)
    (h : isMapped gs = false) : ':' ∈ ipv6Chars gs := by
  rw [ipv6Chars, if_neg (by simp [h])]
  by_cases h2 : 1 < (zeroRun gs).2
  · rw [if_pos h2]
    exact List.mem_append.mpr (.inr (by simp))
  · rw [if_neg h2]
    cases gs with
    | nil => simp at h8
    | cons a tl =>
      cases tl with
      | nil => simp at h8
      | cons b tl2 =>
        rw [groupsChars, groupsChars]
        exact List.mem_append.mpr (.inr (by simp))

/-- Parsing the canonical display of a non-mapped eight-group address
recovers the groups. -/
lemma parseIpv6_roundtrip (gs : List Nat) (h8 : gs.length = 8)
    (hlt : ∀ g ∈ gs, g < 65536) (hnm : isMapped gs = false) :
    parseIpv6 (ipv6Chars gs) = some gs := by
  have hchars := ipv6Chars_not_dot hnm
  rw [ipv6Chars, if_neg (by simp [hnm])] at hchars ⊢
  by_cases h2 : 1 < (zeroRun gs).2
  · rw [if_pos h2] at hchars ⊢
    obtain ⟨hbound, _⟩ := zeroRun_spec gs
    have hbs8 : (zeroRun gs).1 + (zeroRun gs).2 ≤ 8 := by omega
    have hpre_len : (gs.take (zeroRun gs).1).length = (zeroRun gs).1 := by
      rw [List.length_take]
      omega
    have hpost_len : (gs.drop ((zeroRun gs).1 + (zeroRun gs).2)).length =
        8 - ((zeroRun gs).1 + (zeroRun gs).2) := by
      rw [List.length_drop, h8]
    have hndrest : '.' ∉ (':' :: ':' :: groupsChars false
        (gs.drop ((zeroRun gs).1 + (zeroRun gs).2)) : List Char) := by
      intro hm
      rcases List.mem_cons.mp hm with hm | hm
      · cases hm
      · rcases List.mem_cons.mp hm with hm | hm
        · cases hm
        · exact groupsChars_no_dot _ _ hm
    have hhead := readGroups_fmt (gs.take (zeroRun gs).1) 0 8
      (':' :: ':' :: groupsChars false (gs.drop ((zeroRun gs).1 + (zeroRun gs).2)))
      (by omega) (fun v hv => hlt v (List.take_subset _ _ hv)) hndrest
      (.inr ⟨_, rfl⟩)
    rw [show ((0 : Nat) != 0) = false from rfl] at hhead
    have htail := readGroups_fmt (gs.drop ((zeroRun gs).1 + (zeroRun gs).2)) 0
      (8 - ((zeroRun gs).1 + 1)) []
      (by omega) (fun v hv => hlt v (List.drop_subset _ _ hv))
      (by intro hm; cases hm) (.inl rfl)
    rw [show ((0 : Nat) != 0) = false from rfl, List.append_nil] at htail
    rw [parseIpv6, readIpv6Chars, hhead]
    dsimp only
    rw [hpre_len]
    rw [if_neg (by omega), if_neg (by simp), if_pos rfl, if_pos rfl, htail]
    dsimp only
    rw [hpost_len]
    rw [show 8 - (zeroRun gs).1 - (8 - ((zeroRun gs).1 + (zeroRun gs).2)) =
      (zeroRun gs).2 by omega]
    rw [← zeroRun_decompose gs]
  · rw [if_neg h2] at hchars ⊢
    have hfull := readGroups_fmt gs 0 8 [] (by omega)
      (fun v hv => hlt v hv) (by intro hm; cases hm) (.inl rfl)
    rw [show ((0 : Nat) != 0) = false from rfl, List.append_nil] at hfull
    rw [parseIpv6, readIpv6Chars, hfull]
    dsimp only
    rw [if_pos h8]

/-! ## C9: canonicalization and its IPv4-mapped exception -/

/-- Boolean containment agrees with membership. -/
lemma contains_iff_mem (l : List Char) (c : Char) : l.contains c = true ↔ c ∈ l := by
  simp [List.contains]

/-- The dotted-quad display contains a dot. -/
lemma ipv4Chars_mem_dot (a b c d : Nat) : '.' ∈ ipv4Chars a b c d := by
  rw [ipv4Chars]
  exact List.mem_append.mpr (.inr (by simp))

/-- The display of a mapped address contains a dot. -/
lemma ipv6Chars_mapped_dot {gs : List Nat} (h : isMapped gs = true) :
    '.' ∈ ipv6Chars gs := by
  rw [ipv6Chars, if_pos (by simp [h])]
  have hm := ipv4Chars_mem_dot ((gs.getD 6 0) / 256) ((gs.getD 6 0) % 256)
    ((gs.getD 7 0) / 256) ((gs.getD 7 0) % 256)
  simp only [List.mem_cons]
  tauto

/-- The full IPv4 parse yields octets below 256. -/
lemma parseIpv4_bounds {cs : List Char} {a b c d : Nat}
    (h : parseIpv4 cs = some (a, b, c, d)) :
    a < 256 ∧ b < 256 ∧ c < 256 ∧ d < 256 := by
  rw [parseIpv4] at h
  cases hr : readIpv4Chars cs with
  | none => rw [hr] at h; cases h
  | some x =>
    obtain ⟨v, rest⟩ := x
    rw [hr] at h
    cases rest with
    | cons c0 cs2 => exact absurd h (by simp)
    | nil =>
      dsimp only at h
      cases h
      exact readIpv4Chars_bounds hr

/-- C9 counterexample: the IPv4-mapped input `::ffff:0:0` is accepted and
canonicalized to `::ffff:0.0.0.0`, but that canonical string is itself
rejected by the parser (its dot routes it to the IPv4 parser), so
canonicalizing twice is not the same as canonicalizing once. -/
theorem C9_counterexample :
    ParsedIpUpdate.fromStr "::ffff:0:0" =
      .ok ⟨[(DnsRecordType.AAAA, "::ffff:0.0.0.0")]⟩
    ∧ ParsedIpUpdate.fromStr "::ffff:0.0.0.0" = .error "Could not parse IPv4"
    ∧ classifyPart "::ffff:0:0".data = .ok (DnsRecordType.AAAA, "::ffff:0.0.0.0")
    ∧ classifyPart "::ffff:0.0.0.0".data = .error "Could not parse IPv4" :=
  ⟨by decide, by decide, by decide, by decide⟩

/-- C9 (amended): canonicalization is idempotent except on the IPv4-mapped
forms — for every accepted part whose canonical address string does not
carry the mapped form's dot, re-parsing the canonical string succeeds and
re-canonicalizing yields the same type and string; when the canonical
string of an accepted IPv6 part does carry a dot (the `::ffff:a.b.c.d`
form), re-parsing it fails with the IPv4 parse error. -/
theorem C9_canonicalize_idempotent_unless_mapped :
    (∀ (part : List Char) (t : DnsRecordType) (a : String),
      classifyPart part = .ok (t, a) →
      t = .A ∨ a.data.contains '.' = false →
      classifyPart a.data = .ok (t, a))
    ∧ (∀ (part : List Char) (a : String),
      classifyPart part = .ok (.AAAA, a) →
      a.data.contains '.' = true →
      classifyPart a.data = .error "Could not parse IPv4") := by
  constructor
  · intro part t a h hcase
    rw [classifyPart] at h
    by_cases hdot : part.contains '.'
    · rw [if_pos hdot] at h
      cases hp : parseIpv4 part with
      | none => rw [hp] at h; cases h
      | some v =>
        obtain ⟨a1, b1, c1, d1⟩ := v
        rw [hp] at h
        dsimp only at h
        cases h
        obtain ⟨hb1, hb2, hb3, hb4⟩ := parseIpv4_bounds hp
        show classifyPart (ipv4Chars a1 b1 c1 d1) = _
        rw [classifyPart,
          if_pos ((contains_iff_mem _ _).mpr (ipv4Chars_mem_dot a1 b1 c1 d1)),
          parseIpv4_repr a1 b1 c1 d1 hb1 hb2 hb3 hb4]
    · rw [if_neg hdot] at h
      by_cases hcolon : part.contains ':'
      · rw [if_pos hcolon] at h
        cases hp : parseIpv6 part with
        | none => rw [hp] at h; cases h
        | some gs =>
          rw [hp] at h
          dsimp only at h
          cases h
          rcases hcase with hA | hnd
          · exact absurd hA (by decide)
          · have hnd' : '.' ∉ ipv6Chars gs := by
              intro hm
              have := (contains_iff_mem (ipv6Chars gs) '.').mpr hm
              rw [show (String.mk (ipv6Chars gs)).data = ipv6Chars gs from rfl] at hnd
              rw [hnd] at this
              cases this
            have hnm : isMapped gs = false := by
              by_contra hm
              exact hnd' (ipv6Chars_mapped_dot (by simpa using hm))
            obtain ⟨hlen8, hvals⟩ := parseIpv6_shape hp
            show classifyPart (ipv6Chars gs) = _
            rw [classifyPart,
              if_neg (by
                intro hcon
                exact hnd' ((contains_iff_mem _ _).mp hcon)),
              if_pos ((contains_iff_mem _ _).mpr (ipv6Chars_has_colon hlen8 hnm)),
              parseIpv6_roundtrip gs hlen8 hvals hnm]
      · rw [if_neg hcolon] at h
        cases h
  · intro part a h hdotA
    rw [classifyPart] at h
    by_cases hdot : part.contains '.'
    · rw [if_pos hdot] at h
      cases hp : parseIpv4 part with
      | none => rw [hp] at h; cases h
      | some v =>
        obtain ⟨a1, b1, c1, d1⟩ := v
        rw [hp] at h
        exact absurd h (by simp)
    · rw [if_neg hdot] at h
      by_cases hcolon : part.contains ':'
      · rw [if_pos hcolon] at h
        cases hp : parseIpv6 part with
        | none => rw [hp] at h; cases h
        | some gs =>
          rw [hp] at h
          dsimp only at h
          cases h
          have hdm : '.' ∈ ipv6Chars gs :=
            (contains_iff_mem _ _).mp hdotA
          have hm : isMapped gs = true := by
            by_contra hno
            exact ipv6Chars_not_dot (by simpa using hno) hdm
          obtain ⟨tl, htl⟩ : ∃ tl, ipv6Chars gs = ':' :: tl := by
            rw [ipv6Chars, if_pos (by simp [hm])]
            exact ⟨_, rfl⟩
          show classifyPart (ipv6Chars gs) = _
          rw [classifyPart, if_pos hdotA,
            show parseIpv4 (ipv6Chars gs) = none from by
              rw [htl, parseIpv4, readIpv4Chars_not_digit (c := ':') (by decide)]]
      · rw [if_neg hcolon] at h
        cases h

/-- C9 witness: the accepted input `0:0:0:1:0:0:0:1` canonicalizes to
`::1:0:0:0:1`, and the canonical string re-parses to itself. -/
theorem C9_witness :
    classifyPart "::1:0:0:0:1".data = .ok (DnsRecordType.AAAA, "::1:0:0:0:1") :=
  C9_canonicalize_idempotent_unless_mapped.1 "0:0:0:1:0:0:0:1".data
    DnsRecordType.AAAA "::1:0:0:0:1" (by decide) (.inr (by decide))

end Dyndns

